import Mathlib

set_option maxRecDepth 100000

/-!
# Verification of the sozu local metrics drain (src/lib/src/metrics/local_drain.rs)

This file shallowly embeds the data model and the operations of the local
time-series metrics drain and settles the frozen claims about it.

Modelling conventions, used throughout:

* Machine integers: `usize`/`u64` cells are modelled as `ℕ` holding the raw
  little-endian 8-byte value (so always reduced mod 2^64 at write time);
  `i64` reads reinterpret that raw value as a signed number.
* `f64` arithmetic (means, variances, the percentile estimator) is idealised
  as exact fraction arithmetic: `PRat` holds an unreduced
  numerator/denominator pair and its ring operations are the textbook
  cross-multiplication formulas (all structurally recursive, so every
  concrete run below evaluates inside the kernel).  `f64::sqrt` is idealised
  by component-wise integer square roots, which agrees with the floating
  computation on the exactly representable perfect squares arising in the
  concrete theorems below.  The Rust `as usize` cast from `f64` saturates:
  negative values go to 0 and values above `usize::MAX` go to `usize::MAX`;
  `ratToUsize` mirrors that (denominators are positive in every use).
* The sled trees are association lists from structured keys to cell values;
  the byte-level order justification for each range scan is given at its
  definition site, and the byte-level key codec itself is studied separately
  (`KeyBytes` section) for the range-disjointness claim.
-/

/-! ## Idealised f64 scalars and the moving-percentile estimator

Source: `calculate_percentile`, local_drain.rs lines 1047-1061. -/

/-- An exact, unreduced fraction `num / den`: the idealisation of an `f64`
scalar.  Every operation is the plain cross-multiplication formula, with no
gcd normalisation, so kernel reduction never leaves structural recursion.
All denominators produced by the drain's arithmetic are positive. -/
structure PRat where
  num : ℤ
  den : ℤ
deriving DecidableEq, Repr

namespace PRat

def ofNat (n : ℕ) : PRat := ⟨(n : ℤ), 1⟩

def ofInt (i : ℤ) : PRat := ⟨i, 1⟩

protected def add (a b : PRat) : PRat :=
  ⟨a.num * b.den + b.num * a.den, a.den * b.den⟩

protected def sub (a b : PRat) : PRat :=
  ⟨a.num * b.den - b.num * a.den, a.den * b.den⟩

protected def mul (a b : PRat) : PRat := ⟨a.num * b.num, a.den * b.den⟩

protected def div (a b : PRat) : PRat := ⟨a.num * b.den, a.den * b.num⟩

instance : Add PRat := ⟨PRat.add⟩

instance : Sub PRat := ⟨PRat.sub⟩

instance : Mul PRat := ⟨PRat.mul⟩

instance : Div PRat := ⟨PRat.div⟩

end PRat

/-- Structural integer square root (largest `k` with `k * k ≤ n`), kept
fuel-free recursion-wise by scanning `0..n`; used only at the small concrete
variances of the theorems below. -/
def natSqrtL (n : ℕ) : ℕ :=
  (List.range (n + 1)).foldl (fun a k => if k * k ≤ n then k else a) 0

/-- `f64::sqrt` idealised component-wise; exact whenever both components
are perfect squares, which holds in every concrete run below (universal
theorems never unfold it). -/
def PRat.sqrt (q : PRat) : PRat :=
  ⟨(natSqrtL q.num.toNat : ℤ), (natSqrtL q.den.toNat : ℤ)⟩

/-- The Rust `as usize` cast applied to an `f64`, idealised on fractions
with positive denominator: truncation of the value towards zero, saturating
at `0` below and `2^64 - 1` above. -/
def ratToUsize (q : PRat) : ℕ :=
  if q.num ≤ 0 then 0 else min (q.num.fdiv q.den).toNat (2 ^ 64 - 1)

/-- Translation of `calculate_percentile` (local_drain.rs 1047-1061):
`r = 0.01`, `delta = standard_deviation * r`; if the measure equals the old
value it is returned unchanged, if it is below, `old - delta / percentile`
is cast to `usize`, otherwise `old + delta / (1 - percentile)` is cast. -/
def calculate_percentile (old_value : ℕ) (measure : ℕ)
    (standard_deviation : PRat) (percentile : PRat) : ℕ :=
  let r : PRat := ⟨1, 100⟩
  let delta : PRat := standard_deviation * r
  if measure = old_value then
    old_value
  else if measure < old_value then
    ratToUsize (PRat.ofNat old_value - delta / percentile)
  else
    ratToUsize (PRat.ofNat old_value + delta / (PRat.ofNat 1 - percentile))

/-- Modelled from the spec: "Pure function `update(old, sample, stddev, q)`:
if `sample == old` then `old`; if `sample < old` then
`old - (stddev * r) / q` coerced to unsigned (clamped at zero); else
`old + (stddev * r) / (1 - q)` coerced to unsigned; where `r = 0.01`."
Used only to compare the spec's wording against `calculate_percentile`. -/
def percentileSpecUpdate (old : ℕ) (sample : ℕ) (stddev : PRat) (q : PRat) :
    ℕ :=
  if sample = old then old
  else if sample < old then
    ratToUsize (PRat.ofNat old - stddev * ⟨1, 100⟩ / q)
  else
    ratToUsize (PRat.ofNat old + stddev * ⟨1, 100⟩ / (PRat.ofNat 1 - q))

/-! ## Byte-level key codec

Source: the `format!` calls building store keys, e.g. local_drain.rs
lines 567, 587-588, 646-648, 784-793, 845-854, and the sentinel keys
`format!("{}\x7F", key)` (lines 526, 293, 332, 996).  Keys are byte
strings ordered lexicographically by sled; `\t` (9) separates fields and
`\x7F` (127) is the per-family upper bound sentinel. -/

/-- Bytes of a Lean string literal, standing for the Rust `as_bytes()` view
(all ids used here are ASCII). -/
def strBytes (s : String) : List ℕ := s.toList.map Char.toNat

/-- Strict lexicographic order on byte strings, as sled compares keys. -/
def bytesLt : List ℕ → List ℕ → Bool
  | [], [] => false
  | [], _ :: _ => true
  | _ :: _, [] => false
  | a :: as, b :: bs => a < b || (a = b && bytesLt as bs)

/-- Non-strict lexicographic order on byte strings. -/
def bytesLe (x y : List ℕ) : Bool := x = y || bytesLt x y

/-- Strict byte order on two ASCII strings, as sled compares the encoded
keys. -/
def strLtB (a b : String) : Bool := bytesLt (strBytes a) (strBytes b)

/-- `cluster_prefix(name, cluster)`: `"{name}\t{cluster}"`
(local_drain.rs 498). -/
def clusterPreBytes (name cid : String) : List ℕ :=
  strBytes name ++ [9] ++ strBytes cid

/-- `row_key(prefix, ts)`: `"{prefix}\t{ts}"` with the timestamp in decimal
ASCII (local_drain.rs 567 et al.). -/
def rowKeyBytes (pre : List ℕ) (ts : ℕ) : List ℕ :=
  pre ++ [9] ++ strBytes (toString ts)

/-- `sentinel(prefix)`: `"{prefix}\x7F"` (local_drain.rs 526). -/
def sentKeyBytes (pre : List ℕ) : List ℕ := pre ++ [127]

/-- Membership of key `k` in the scan range `prefix .. sentinel(prefix)`
(inclusive-exclusive), as used by `dump_cluster_data`'s
`tree.range(key..end)` (local_drain.rs 404, 439) and by the
`get_last_before` bound check (355-394). -/
def inPreRange (pre k : List ℕ) : Bool :=
  bytesLe pre k && bytesLt k (sentKeyBytes pre)

/-! ### Facts about the byte order -/

theorem bytesLt_irrefl (x : List ℕ) : bytesLt x x = false := by
  induction x with
  | nil => rfl
  | cons a as ih => simp [bytesLt, ih]

theorem bytesLe_refl (x : List ℕ) : bytesLe x x = true := by
  simp [bytesLe]

/-- Any byte string lying in the range `A .. A ++ [127]` has `A` as a
byte-prefix: below the range's low end the first differing byte is smaller,
at or above its high end the first differing byte reaches `127`. -/
theorem isPrefix_of_inPreRange (A k : List ℕ) (h : inPreRange A k = true) :
    A <+: k := by
  induction A generalizing k with
  | nil => exact List.nil_prefix
  | cons a as ih =>
    cases k with
    | nil =>
      exfalso
      simp only [inPreRange, bytesLe, Bool.and_eq_true, Bool.or_eq_true] at h
      rcases h.1 with h1 | h1
      · exact absurd (of_decide_eq_true h1) (by simp)
      · simp [bytesLt] at h1
    | cons b bs =>
      simp only [inPreRange, bytesLe, Bool.and_eq_true, Bool.or_eq_true] at h
      obtain ⟨h1, h2⟩ := h
      have hab : a = b := by
        rcases h1 with h1 | h1
        · have := of_decide_eq_true h1
          exact (List.cons.injEq .. ▸ this).1
        · simp only [bytesLt, Bool.or_eq_true, Bool.and_eq_true,
            decide_eq_true_eq] at h1 h2
          rcases h1 with h1 | ⟨h1, _⟩
          · -- a < b contradicts k < A ++ [127] only if b ≥ a; here a < b
            -- means the low bound already fixes nothing: but then
            -- k < sentinel forces b < a or b = a, contradiction.
            rcases h2 with h2 | ⟨h2, _⟩
            · omega
            · omega
          · exact h1
      subst hab
      have h1' : bytesLe as bs = true := by
        rcases h1 with h1 | h1
        · have := of_decide_eq_true h1
          have : as = bs := (List.cons.injEq .. ▸ this).2
          simp [bytesLe, this]
        · simp only [bytesLt, Bool.or_eq_true, Bool.and_eq_true,
            decide_eq_true_eq] at h1
          rcases h1 with h1 | ⟨_, h1⟩
          · omega
          · simp [bytesLe, h1]
      have h2' : bytesLt bs (sentKeyBytes as) = true := by
        simp only [sentKeyBytes, List.cons_append, bytesLt, Bool.or_eq_true,
          Bool.and_eq_true, decide_eq_true_eq] at h2
        rcases h2 with h2 | ⟨_, h2⟩
        · omega
        · exact h2
      exact (List.prefix_cons_inj a).mpr
        (ih bs (by simp [inPreRange, h1', h2']))

/-- Two byte-prefixes of one string are comparable. -/
theorem prefix_total_of_prefix (A B k : List ℕ) (hA : A <+: k)
    (hB : B <+: k) : A <+: B ∨ B <+: A := by
  induction k generalizing A B with
  | nil =>
    rw [List.prefix_nil] at hA hB
    subst hA; subst hB; left; exact List.nil_prefix
  | cons c cs ih =>
    cases A with
    | nil => left; exact List.nil_prefix
    | cons a as =>
      cases B with
      | nil => right; exact List.nil_prefix
      | cons b bs =>
        rw [List.cons_prefix_cons] at hA hB
        obtain ⟨rfl, hA⟩ := hA
        obtain ⟨rfl, hB⟩ := hB
        rcases ih as bs hA hB with h | h
        · left; exact (List.prefix_cons_inj _).mpr h
        · right; exact (List.prefix_cons_inj _).mpr h

/-! ## Structured store model

The sled trees map byte-string keys to 8-byte values.  Every key the drain
ever writes has one of two shapes: a data row `"{pre}\t{ts}"` or a sentinel
`"{pre}\x7F"`, where `pre` is a registry prefix (`"{name}\t{cluster}"`,
`"{name}\t{cluster}\t{backend}"`) or a Time sub-field prefix
(`"{base}.{field} "`).  We model keys with that structure.

Byte-order justification for the range scans (used at each range site):
ids and names contain no `\t` (9), no `\x7F` (127), no space (32) and no
control bytes, and all timestamps written while a process runs are
10-digit decimals, so inside a fixed prefix the lexicographic order of
`"{pre}\t{ts}"` keys is the numeric order of the timestamps.  Keys of any
other same-tree prefix `q` extending `pre` continue with a printable byte
(> 9), hence fall lexicographically above every bound of the form
`"{pre}\t..."`, and sub-field keys `"{pre}.{field} ..."` (46 > 9) likewise;
sentinels (127) lie above all of them.  Hence every range the drain scans
with bounds under prefix `pre` touches exactly the rows of `pre` in the
corresponding timestamp window, which is what the model's range predicates
select. -/

inductive MetricData
  | Gauge (v : ℕ)
  | GaugeAdd (v : ℤ)
  | Count (v : ℤ)
  | Time (v : ℕ)
deriving DecidableEq, Repr

inductive MetricKind
  | Gauge
  | Count
  | Time
deriving DecidableEq, Repr

inductive MetricMeta
  | Cluster
  | ClusterBackend
deriving DecidableEq, Repr

/-- An 8-byte stored cell: `raw n` is the little-endian `u64` reading of the
bytes (writers reduce mod 2^64); `flt q` is an idealised `f64` cell (only
the `mean` and `var` sub-fields hold floats). -/
inductive Val
  | raw (n : ℕ)
  | flt (q : PRat)
deriving DecidableEq, Repr

def U64MOD : ℕ := 2 ^ 64

/-- `usize::to_le_bytes` view of an unbounded natural. -/
def wrapU64 (n : ℕ) : ℕ := n % U64MOD

/-- `i64::from_le_bytes` on a raw cell. -/
def readI64 (n : ℕ) : ℤ := if n < 2 ^ 63 then (n : ℤ) else (n : ℤ) - (U64MOD : ℤ)

/-- `i64::to_le_bytes`: the raw cell holding a signed value. -/
def writeI64 (i : ℤ) : ℕ := (i % (U64MOD : ℤ)).toNat

/-- `usize::from_le_bytes` of a cell (float cells are never read as
integers on the modelled paths). -/
def Val.asU64 : Val → ℕ
  | .raw n => n
  | .flt _ => 0

/-- `i64::from_le_bytes` of a cell. -/
def Val.asI64 : Val → ℤ
  | .raw n => readI64 n
  | .flt _ => 0

/-- `f64::from_le_bytes` of a cell (integer cells are never read as floats
on the modelled paths). -/
def Val.asF64 : Val → PRat
  | .raw _ => ⟨0, 1⟩
  | .flt q => q

/-- A structured store key: a data row of a prefix at a timestamp, or a
prefix's upper-bound sentinel. -/
inductive SKey
  | row (pre : String) (ts : ℤ)
  | sent (pre : String)
deriving DecidableEq, Repr

/-- The byte string a structured key stands for. -/
def encodeSK : SKey → String
  | .row p ts => p ++ "\t" ++ toString ts
  | .sent p => p ++ "\x7F"

/-- A sled tree: an association list of keys to cells (sled itself keeps
keys sorted and unique; all reads below go through `find`/fold selectors,
so the list order is irrelevant to the model). -/
structure STree where
  entries : List (SKey × Val)
deriving DecidableEq, Repr

namespace STree

/-- `tree.get(k)`. -/
def find (t : STree) (k : SKey) : Option Val :=
  (t.entries.find? (fun e => decide (e.1 = k))).map (·.2)

/-- `tree.insert(k, v)` (overwrites). -/
def insertKV (t : STree) (k : SKey) (v : Val) : STree :=
  ⟨(k, v) :: t.entries.filter (fun e => decide (e.1 ≠ k))⟩

/-- `tree.remove(k)`. -/
def removeK (t : STree) (k : SKey) : STree :=
  ⟨t.entries.filter (fun e => decide (e.1 ≠ k))⟩

/-- Removing every key of a scanned range (the `for … { tree.remove(k) }`
loops over `tree.range(..)`). -/
def removeRange (t : STree) (P : SKey → Bool) : STree :=
  ⟨t.entries.filter (fun e => !P e.1)⟩

/-- The row with the greatest timestamp among the rows matched by `P`
(equivalently: the last hit of an ascending range scan, or the first hit
of a descending one). -/
def lastRowIn (t : STree) (P : SKey → Bool) : Option (ℤ × Val) :=
  t.entries.foldl (fun acc e =>
    match e.1 with
    | SKey.row _ ts =>
      if P e.1 then
        match acc with
        | none => some (ts, e.2)
        | some (m, v) => if m < ts then some (ts, e.2) else some (m, v)
      else acc
    | _ => acc) none

/-- Whether the range matched by `P` is non-empty (`found` in
`aggregate_count`). -/
def anyRowIn (t : STree) (P : SKey → Bool) : Bool :=
  t.entries.any (fun e => P e.1)

/-- Sum of the `i64` readings of the rows matched by `P` (the running
`value` of `aggregate_count`'s scan; `i64` overflow idealised away). -/
def sumRowsI64 (t : STree) (P : SKey → Bool) : ℤ :=
  t.entries.foldl (fun acc e => if P e.1 then acc + e.2.asI64 else acc) 0

/-- `tree.get_gt(bound)` for a bare byte-string bound: the least stored key
strictly above it in byte order (local_drain.rs 997). -/
def get_gt (t : STree) (bound : String) : Option SKey :=
  t.entries.foldl (fun acc e =>
    if strLtB bound (encodeSK e.1) then
      match acc with
      | none => some e.1
      | some m => if strLtB (encodeSK e.1) (encodeSK m) then some e.1 else acc
    else acc) none

/-- `tree.get_lt(bound)`: the greatest stored key strictly below the bound
in byte order (local_drain.rs 362). -/
def get_lt (t : STree) (bound : String) : Option (SKey × Val) :=
  t.entries.foldl (fun acc e =>
    if strLtB (encodeSK e.1) bound then
      match acc with
      | none => some e
      | some m => if strLtB (encodeSK m.1) (encodeSK e.1) then some e else acc
    else acc) none

end STree

/-- Rows of prefix `pre` in the half-open window `[lo, hi)` — the byte range
`"{pre}\t{lo}" .. "{pre}\t{hi}"` (see the byte-order note above). -/
def rowIn (pre : String) (lo hi : ℤ) (k : SKey) : Bool :=
  match k with
  | SKey.row p ts => decide (p = pre ∧ lo ≤ ts ∧ ts < hi)
  | SKey.sent _ => false

/-- Rows of prefix `pre` in the closed window `[lo, hi]` — the byte range
`"{pre}\t{lo}" ..= "{pre}\t{hi}"` of `add_gauge` (line 596). -/
def rowInIncl (pre : String) (lo hi : ℤ) (k : SKey) : Bool :=
  match k with
  | SKey.row p ts => decide (p = pre ∧ lo ≤ ts ∧ ts ≤ hi)
  | SKey.sent _ => false

/-- Rows of prefix `pre` strictly before `cut` — the retention byte range
`"{pre}" .. "{pre}\t{cut}"` (lines 686-692, 744-750): the bare low bound
is below every `"{pre}\t..."` key, and no other key shape of the tree falls
inside (see the byte-order note). -/
def rowBeforeCut (pre : String) (cut : ℤ) (k : SKey) : Bool :=
  match k with
  | SKey.row p ts => decide (p = pre ∧ ts < cut)
  | SKey.sent _ => false

/-- `OffsetDateTime::second()` of the instant with this unix timestamp. -/
def secOf (ts : ℤ) : ℤ := ts.emod 60

/-- `OffsetDateTime::minute()` of the instant with this unix timestamp. -/
def minuteOf (ts : ℤ) : ℤ := (ts.ediv 60).emod 60

/-- The process-global aggregated metric (`AggregatedMetric`, lines 11-16);
the hdrhistogram of a Time metric is idealised as its list of recorded
samples. -/
inductive AggregatedMetric
  | Gauge (v : ℕ)
  | Count (v : ℤ)
  | Time (samples : List ℕ)
deriving DecidableEq, Repr

/-- `AggregatedMetric::new` (lines 19-33).  A first `GaugeAdd(value)`
becomes `Gauge(value as usize)`: the signed delta reinterpreted as an
unsigned machine integer. -/
def AggregatedMetric.new : MetricData → AggregatedMetric
  | .Gauge v => .Gauge (wrapU64 v)
  | .GaugeAdd v => .Gauge (writeI64 v)
  | .Count v => .Count v
  | .Time v => .Time [v]

/-- `AggregatedMetric::update` (lines 35-53).  The source panics on a kind
mismatch; the model leaves the entry unchanged there (no claim exercises
the mismatch case). -/
def AggregatedMetric.update : AggregatedMetric → MetricData → AggregatedMetric
  | .Gauge _, .Gauge v2 => .Gauge (wrapU64 v2)
  | .Gauge v1, .GaugeAdd v2 => .Gauge (writeI64 (readI64 v1 + v2))
  | .Count v1, .Count v2 => .Count (v1 + v2)
  | .Time s, .Time v2 => .Time (v2 :: s)
  | m, _ => m

/-- Association-list map lookup (`BTreeMap::get`). -/
def lookupL {α : Type} (l : List (String × α)) (k : String) : Option α :=
  (l.find? (fun e => decide (e.1 = k))).map (·.2)

/-- Association-list map insert (`BTreeMap::insert`, overwriting). -/
def insertL {α : Type} (l : List (String × α)) (k : String) (v : α) :
    List (String × α) :=
  (k, v) :: l.filter (fun e => decide (e.1 ≠ k))

/-- Association-list map removal (`BTreeMap::remove`). -/
def removeL {α : Type} (l : List (String × α)) (k : String) :
    List (String × α) :=
  l.filter (fun e => decide (e.1 ≠ k))

/-- The drain state (struct `LocalDrain`, lines 104-115).  The fields
`prefix`, `created`, `db`, `use_tagged_metrics` and `origin` are
configuration and handles with no bearing on the claims and are omitted.
The registry is an association list; the source's `BTreeMap` iterates it
in sorted key order, but every result below is independent of the
iteration order, so the list order is left unconstrained. -/
structure LocalDrain where
  clusterTree : STree
  backendTree : STree
  metrics : List (String × MetricMeta × MetricKind)
  data : List (String × AggregatedMetric)
deriving DecidableEq, Repr

namespace LocalDrain

/-- `LocalDrain::new` (fresh empty trees and maps). -/
def new : LocalDrain := ⟨⟨[]⟩, ⟨[]⟩, [], []⟩

/-- The tree selected by `is_backend`. -/
def tree (d : LocalDrain) (isB : Bool) : STree :=
  if isB then d.backendTree else d.clusterTree

/-- Writing back the tree selected by `is_backend`. -/
def setTree (d : LocalDrain) (isB : Bool) (t : STree) : LocalDrain :=
  if isB then { d with backendTree := t } else { d with clusterTree := t }

end LocalDrain

namespace LocalDrain

/-- `LocalDrain::aggregate_gauge` (local_drain.rs 644-696).  At every call,
the rows of the last minute `[ts-60, ts)` are removed and the value of the
most recent of them reinserted at `ts-60`; when `now.minute() == 0` the
rows of `[ts-3600, ts-60)` are likewise collapsed — the source reinserts
their value at `one_minute_ago` (`ts-60`, line 682), not at
`one_hour_ago`, which the model reproduces — and every row strictly older
than 24 hours is removed. -/
def aggregate_gauge (key : String) (now : ℤ) (t : STree) : STree :=
  let ts := now
  let v1 := t.lastRowIn (rowIn key (ts - 60) ts)
  let t1 := t.removeRange (rowIn key (ts - 60) ts)
  let t2 := match v1 with
    | some (_, v) => t1.insertKV (SKey.row key (ts - 60)) (Val.raw v.asU64)
    | none => t1
  if minuteOf now = 0 then
    let v2 := t2.lastRowIn (rowIn key (ts - 3600) (ts - 60))
    let t3 := t2.removeRange (rowIn key (ts - 3600) (ts - 60))
    let t4 := match v2 with
      | some (_, v) => t3.insertKV (SKey.row key (ts - 60)) (Val.raw v.asU64)
      | none => t3
    t4.removeRange (rowBeforeCut key (ts - 3600 * 24))
  else t2

/-- `LocalDrain::aggregate_count` (local_drain.rs 698-754).  Same shape as
`aggregate_gauge`, but the collapsed value is the `i64` sum of the range;
the hourly roll-up is correctly reinserted at `one_hour_ago` here
(line 740). -/
def aggregate_count (key : String) (now : ℤ) (t : STree) : STree :=
  let ts := now
  let found1 := t.anyRowIn (rowIn key (ts - 60) ts)
  let v1 := t.sumRowsI64 (rowIn key (ts - 60) ts)
  let t1 := t.removeRange (rowIn key (ts - 60) ts)
  let t2 := if found1 then
      t1.insertKV (SKey.row key (ts - 60)) (Val.raw (writeI64 v1))
    else t1
  if minuteOf now = 0 then
    let found2 := t2.anyRowIn (rowIn key (ts - 3600) (ts - 60))
    let v2 := t2.sumRowsI64 (rowIn key (ts - 3600) (ts - 60))
    let t3 := t2.removeRange (rowIn key (ts - 3600) (ts - 60))
    let t4 := if found2 then
        t3.insertKV (SKey.row key (ts - 3600)) (Val.raw (writeI64 v2))
      else t3
    t4.removeRange (rowBeforeCut key (ts - 3600 * 24))
  else t2

/-- `LocalDrain::store_gauge` (local_drain.rs 564-582): insert the value at
the current second; when the second is 0, aggregate the past minute. -/
def store_gauge (key : String) (i : ℕ) (isB : Bool) (now : ℤ)
    (d : LocalDrain) : LocalDrain :=
  let t := (d.tree isB).insertKV (SKey.row key now) (Val.raw (wrapU64 i))
  let t := if secOf now = 0 then aggregate_gauge key now t else t
  d.setTree isB t

/-- `LocalDrain::add_gauge` (local_drain.rs 584-613): read the most recent
row in the closed window `[now-60, now]` (descending range, first hit); add
the delta to it if found, else store the delta; insert at `now`; aggregate
when the second is 0. -/
def add_gauge (key : String) (i : ℤ) (isB : Bool) (now : ℤ)
    (d : LocalDrain) : LocalDrain :=
  let t0 := d.tree isB
  let t1 := match t0.lastRowIn (rowInIncl key (now - 60) now) with
    | none => t0.insertKV (SKey.row key now) (Val.raw (writeI64 i))
    | some (_, v) =>
        t0.insertKV (SKey.row key now) (Val.raw (writeI64 (i + v.asI64)))
  let t2 := if secOf now = 0 then aggregate_gauge key now t1 else t1
  d.setTree isB t2

/-- `LocalDrain::store_count` (local_drain.rs 615-642): add to the row at
the current second (point read, not a window); aggregate when the second
is 0. -/
def store_count (key : String) (i : ℤ) (isB : Bool) (now : ℤ)
    (d : LocalDrain) : LocalDrain :=
  let t0 := d.tree isB
  let t1 := match t0.find (SKey.row key now) with
    | none => t0.insertKV (SKey.row key now) (Val.raw (writeI64 i))
    | some v =>
        t0.insertKV (SKey.row key now) (Val.raw (writeI64 (i + v.asI64)))
  let t2 := if secOf now = 0 then aggregate_count key now t1 else t1
  d.setTree isB t2

/-- `LocalDrain::store_metric` (local_drain.rs 509-562).  On first sight of
the prefix, the registry entry is inserted, then the sentinel row; then the
data write is dispatched by kind.  The `Time` arm is commented out in the
source (line 545) and stores nothing. -/
def store_metric (keyPre : String) (isB : Bool) (metric : MetricData)
    (now : ℤ) (d : LocalDrain) : LocalDrain :=
  let d1 :=
    if (lookupL d.metrics keyPre).isNone then
      let kind := match metric with
        | .Gauge _ => MetricKind.Gauge
        | .GaugeAdd _ => MetricKind.Gauge
        | .Count _ => MetricKind.Count
        | .Time _ => MetricKind.Time
      let meta := if isB then MetricMeta.ClusterBackend else MetricMeta.Cluster
      let d' := { d with metrics := insertL d.metrics keyPre (meta, kind) }
      d'.setTree isB ((d'.tree isB).insertKV (SKey.sent keyPre) (Val.raw 0))
    else d
  match metric with
  | .Gauge i => store_gauge keyPre i isB now d1
  | .GaugeAdd i => add_gauge keyPre i isB now d1
  | .Count i => store_count keyPre i isB now d1
  | .Time _ => d1

end LocalDrain

/-- The ten Time sub-field names, in the order the source registers them
(local_drain.rs 784-793). -/
def subFields : List String :=
  ["count", "mean", "var", "p50", "p90", "p99", "p99.9", "p99.99",
   "p99.999", "p100"]

/-- `"{prefix}.{field} "` — the sub-field prefix, with its trailing space
(local_drain.rs 784-793). -/
def timeSub (base fld : String) : String := base ++ "." ++ fld ++ " "

/-- One percentile sub-field update inside `store_time_metric_at`
(the seven near-identical blocks at local_drain.rs 896-948): if the cell is
present, run the estimator on it and write it back; absent cells are left
alone. -/
def updPercentile (t : STree) (k : SKey) (tv : ℕ) (sd : PRat) (q : PRat) :
    STree :=
  match t.find k with
  | none => t
  | some ov =>
      t.insertKV k (Val.raw (wrapU64 (calculate_percentile ov.asU64 tv sd q)))

/-- The per-timestamp cell update of `store_time_metric_at`
(local_drain.rs 845-964): initialise the ten sub-field cells from a fresh
sample, or push the sample through count, online moments, the percentile
estimator and the `p100` max. -/
def timeCellsUpdate (keyPre : String) (timestamp : ℤ) (tv : ℕ)
    (t0 : STree) : STree :=
  let countK := SKey.row (timeSub keyPre "count") timestamp
  let meanK := SKey.row (timeSub keyPre "mean") timestamp
  let varK := SKey.row (timeSub keyPre "var") timestamp
  let p50K := SKey.row (timeSub keyPre "p50") timestamp
  let p90K := SKey.row (timeSub keyPre "p90") timestamp
  let p99K := SKey.row (timeSub keyPre "p99") timestamp
  let p99_9K := SKey.row (timeSub keyPre "p99.9") timestamp
  let p99_99K := SKey.row (timeSub keyPre "p99.99") timestamp
  let p99_999K := SKey.row (timeSub keyPre "p99.999") timestamp
  let p100K := SKey.row (timeSub keyPre "p100") timestamp
  match t0.find countK with
  | none =>
      ((((((((((t0.insertKV countK (Val.raw 1)).insertKV
        meanK (Val.flt (PRat.ofNat tv))).insertKV
        varK (Val.flt ⟨0, 1⟩)).insertKV
        p50K (Val.raw (wrapU64 tv))).insertKV
        p90K (Val.raw (wrapU64 tv))).insertKV
        p99K (Val.raw (wrapU64 tv))).insertKV
        p99_9K (Val.raw (wrapU64 tv))).insertKV
        p99_99K (Val.raw (wrapU64 tv))).insertKV
        p99_999K (Val.raw (wrapU64 tv))).insertKV
        p100K (Val.raw (wrapU64 tv)))
  | some v =>
      let old_count := v.asI64
      let t1 := t0.insertKV countK (Val.raw (writeI64 (old_count + 1)))
      match t1.find meanK with
      | none => t1.insertKV meanK (Val.raw (wrapU64 tv))
      | some mv =>
          let old_mean := mv.asF64
          let new_mean :=
            (old_mean * PRat.ofInt old_count + PRat.ofNat tv) /
              (PRat.ofInt old_count + PRat.ofNat 1)
          let t2 := t1.insertKV meanK (Val.flt new_mean)
          match t2.find varK with
          | none => t2.insertKV varK (Val.flt ⟨0, 1⟩)
          | some vv =>
              let old_var := vv.asF64
              let deviation := PRat.ofNat tv - old_mean
              let new_var :=
                (old_var * PRat.ofInt old_count + deviation * deviation) /
                  (PRat.ofInt old_count + PRat.ofNat 1)
              let t3 := t2.insertKV varK (Val.flt new_var)
              let standard_dev := new_var.sqrt
              let t4 := updPercentile t3 p50K tv standard_dev ⟨50, 100⟩
              let t5 := updPercentile t4 p90K tv standard_dev ⟨90, 100⟩
              let t6 := updPercentile t5 p99K tv standard_dev ⟨99, 100⟩
              let t7 :=
                updPercentile t6 p99_9K tv standard_dev ⟨999, 1000⟩
              let t8 :=
                updPercentile t7 p99_99K tv standard_dev ⟨9999, 10000⟩
              let t9 :=
                updPercentile t8 p99_999K tv standard_dev ⟨99999, 100000⟩
              match t9.find p100K with
              | none => t9
              | some ov =>
                  if ov.asU64 < tv then
                    t9.insertKV p100K (Val.raw (wrapU64 tv))
                  else t9

namespace LocalDrain

/-- `LocalDrain::store_time_metric_at` (local_drain.rs 776-967).  First
sight of the prefix registers it with kind `Time` and inserts the ten
sub-field sentinels (no bare `"{prefix}\x7F"` sentinel is written).  Then,
at the given timestamp: a fresh `count` cell initialises all ten sub-fields
from the sample; otherwise count is incremented, mean and variance updated
by the online-moments recurrence, each percentile updated by the estimator
with `stddev = sqrt(new_var)`, and `p100` set to the max. -/
def store_time_metric_at (key cid : String) (bid : Option String)
    (timestamp : ℤ) (tv : ℕ) (d : LocalDrain) : LocalDrain :=
  let keyPre := match bid with
    | some b => key ++ "\t" ++ cid ++ "\t" ++ b
    | none => key ++ "\t" ++ cid
  let isB := bid.isSome
  let d1 :=
    if (lookupL d.metrics keyPre).isNone then
      let meta := if isB then MetricMeta.ClusterBackend else MetricMeta.Cluster
      let d' :=
        { d with metrics := insertL d.metrics keyPre (meta, MetricKind.Time) }
      d'.setTree isB (subFields.foldl
        (fun t f => t.insertKV (SKey.sent (timeSub keyPre f)) (Val.raw 0))
        (d'.tree isB))
    else d
  d1.setTree isB (timeCellsUpdate keyPre timestamp tv (d1.tree isB))

/-- `LocalDrain::store_time_metric` (local_drain.rs 756-774): store at the
arriving second and, when the second is not 0, also at the start of the
current minute. -/
def store_time_metric (key cid : String) (bid : Option String) (now : ℤ)
    (tv : ℕ) (d : LocalDrain) : LocalDrain :=
  let d1 := store_time_metric_at key cid bid now tv d
  if secOf now ≠ 0 then
    store_time_metric_at key cid bid (now - secOf now) tv d1
  else d1

/-- `LocalDrain::receive_cluster_metric` (local_drain.rs 485-507): Time
samples go through the time path (cluster store, then backend store when a
backend id is present); other kinds through `store_metric` with the
formatted prefixes. -/
def receive_cluster_metric (key cid : String) (bid : Option String)
    (metric : MetricData) (now : ℤ) (d : LocalDrain) : LocalDrain :=
  match metric with
  | .Time t =>
      let d1 := store_time_metric key cid none now t d
      match bid with
      | some _ => store_time_metric key cid bid now t d1
      | none => d1
  | _ =>
      let d1 := store_metric (key ++ "\t" ++ cid) false metric now d
      match bid with
      | some b =>
          store_metric (key ++ "\t" ++ cid ++ "\t" ++ b) true metric now d1
      | none => d1

/-- `Subscriber::receive_metric` for `LocalDrain` (local_drain.rs
1030-1043): with a cluster id, route to the store; without one, update the
process-global map in place (first sight inserts a fresh aggregate). -/
def receive_metric (key : String) (cid : Option String) (bid : Option String)
    (metric : MetricData) (now : ℤ) (d : LocalDrain) : LocalDrain :=
  match cid with
  | some c => receive_cluster_metric key c bid metric now d
  | none =>
      match lookupL d.data key with
      | none =>
          { d with data := insertL d.data key (AggregatedMetric.new metric) }
      | some m =>
          { d with data := insertL d.data key (m.update metric) }

/-- One registry entry's pass of `LocalDrain::clear` (the body of the loop
at local_drain.rs 975-1004): aggregate by kind (Time does nothing), then, if
the first key after the bare prefix is its bare sentinel, evict the prefix:
remove the sentinel row and the registry entry. -/
def clearStep (now : ℤ) (d : LocalDrain)
    (entry : String × MetricMeta × MetricKind) : LocalDrain :=
  let key := entry.1
  let meta := entry.2.1
  let kind := entry.2.2
  let isB := meta = MetricMeta.ClusterBackend
  let d1 := match kind with
    | MetricKind.Gauge => d.setTree isB (aggregate_gauge key now (d.tree isB))
    | MetricKind.Count => d.setTree isB (aggregate_count key now (d.tree isB))
    | MetricKind.Time => d
  let t := d1.tree isB
  match t.get_gt key with
  | some k =>
      if k = SKey.sent key then
        let d2 := d1.setTree isB (t.removeK k)
        { d2 with metrics := removeL d2.metrics key }
      else d1
  | none => d1

/-- `LocalDrain::clear(now)` (local_drain.rs 969-1024): iterate a snapshot
of the registry, aggregating and possibly evicting each prefix (the trailing
`info!` dumps read the trees without mutating them). -/
def clear (now : ℤ) (d : LocalDrain) : LocalDrain :=
  d.metrics.foldl (clearStep now) d

end LocalDrain

/-! ## Query engine

Source: `query`, `query_cluster`, `query_backend`, `get_last_before`
(local_drain.rs 157-394).  The answer/value types come from the
`sozu_command::proxy` crate (not part of this repository); they are plain
data containers and are modelled directly from their use here. -/

/-- `Percentiles` (sozu_command): eight `u64` slots, `Default` = all 0. -/
structure Percentiles where
  samples : ℕ
  p_50 : ℕ
  p_90 : ℕ
  p_99 : ℕ
  p_99_9 : ℕ
  p_99_99 : ℕ
  p_99_999 : ℕ
  p_100 : ℕ
deriving DecidableEq, Repr

def Percentiles.zero : Percentiles := ⟨0, 0, 0, 0, 0, 0, 0, 0⟩

/-- `FilteredData` (sozu_command): one queried series value. -/
inductive FilteredData
  | Gauge (v : ℕ)
  | Count (v : ℤ)
  | Percentiles (p : Percentiles)
deriving DecidableEq, Repr

/-- Nested cluster answer map `cluster → key → value`. -/
def AMap : Type := List (String × List (String × FilteredData))

/-- Nested backend answer map `cluster → backend → key → value`. -/
def BMap : Type := List (String × List (String × List (String × FilteredData)))

/-- `QueryMetricsType` (sozu_command). -/
inductive QueryMetricsType
  | List
  | Cluster (metrics : List String) (clusters : List String)
  | Backend (metrics : List String) (backends : List (String × String))

/-- `QueryAnswerMetrics` (sozu_command). -/
inductive QueryAnswerMetrics
  | List (l : List String)
  | Cluster (m : AMap)
  | Backend (m : BMap)

namespace LocalDrain

/-- `LocalDrain::get_last_before` (local_drain.rs 355-394): `get_lt` of the
end bound on the selected tree; the hit counts only if its key starts with
the start bound (the branch that fails the check only logs). -/
def get_last_before (d : LocalDrain) (start stop : String) (isB : Bool) :
    Option Val :=
  match (d.tree isB).get_lt stop with
  | some (k, v) => if start.isPrefixOf (encodeSK k) then some v else none
  | none => none

/-- One sub-field read of the Time branch of `query_cluster` (the repeated
blocks at local_drain.rs 201-285): `get_last_before` between
`"{m}\t{c}.{field} "` and its sentinel, decoded as `usize`. -/
def readSubU64 (d : LocalDrain) (m c fld : String) : Option ℕ :=
  let k := m ++ "\t" ++ c ++ "." ++ fld ++ " "
  (d.get_last_before k (k ++ "\x7F") false).map Val.asU64

/-- The `Percentiles` record assembled by the Time branch of
`query_cluster`: starts from `Default` and fills each slot on a hit
(`mean` and `var` are not queried). -/
def timePercentiles (d : LocalDrain) (m c : String) : Percentiles where
  samples := (d.readSubU64 m c "count").getD 0
  p_50 := (d.readSubU64 m c "p50").getD 0
  p_90 := (d.readSubU64 m c "p90").getD 0
  p_99 := (d.readSubU64 m c "p99").getD 0
  p_99_9 := (d.readSubU64 m c "p99.9").getD 0
  p_99_99 := (d.readSubU64 m c "p99.99").getD 0
  p_99_999 := (d.readSubU64 m c "p99.999").getD 0
  p_100 := (d.readSubU64 m c "p100").getD 0

/-- What one `(metric, cluster)` pair of `query_cluster` contributes
(the loop body, local_drain.rs 186-306): `none` both for an unknown prefix
(logged and skipped) and for a Gauge/Count prefix with no row to read. -/
def pairAnswerC (d : LocalDrain) (m c : String) : Option FilteredData :=
  let key := m ++ "\t" ++ c
  match lookupL d.metrics key with
  | none => none
  | some (_, MetricKind.Time) =>
      some (FilteredData.Percentiles (d.timePercentiles m c))
  | some (_, kind) =>
      match d.get_last_before key (key ++ "\x7F") false with
      | some v =>
          match kind with
          | MetricKind.Gauge => some (FilteredData.Gauge v.asU64)
          | MetricKind.Count => some (FilteredData.Count v.asI64)
          | MetricKind.Time => none
      | none => none

/-- What one `(metric, (cluster, backend))` pair of `query_backend`
contributes (local_drain.rs 321-348); the Time arm is explicitly
unimplemented there and contributes nothing. -/
def pairAnswerB (d : LocalDrain) (m c b : String) : Option FilteredData :=
  let key := m ++ "\t" ++ c ++ "\t" ++ b
  match lookupL d.metrics key with
  | none => none
  | some (_, kind) =>
      match d.get_last_before key (key ++ "\x7F") true with
      | some v =>
          match kind with
          | MetricKind.Gauge => some (FilteredData.Gauge v.asU64)
          | MetricKind.Count => some (FilteredData.Count v.asI64)
          | MetricKind.Time => none
      | none => none

end LocalDrain

/-- Insertion into the nested cluster answer map (`apps.get_mut(cluster_id)
.unwrap().insert(...)`; the cluster slot is always pre-seeded). -/
def insert2 (a : AMap) (c k : String) (v : FilteredData) : AMap :=
  match lookupL a c with
  | some sub => insertL a c (insertL sub k v)
  | none => insertL a c (insertL [] k v)

/-- Insertion into the nested backend answer map. -/
def insert3 (a : BMap) (c b k : String) (v : FilteredData) : BMap :=
  match lookupL a c with
  | some sub =>
      match lookupL sub b with
      | some sub2 => insertL a c (insertL sub b (insertL sub2 k v))
      | none => insertL a c (insertL sub b (insertL [] k v))
  | none => insertL a c (insertL [] b (insertL [] k v))

/-- The seeded cluster answer map (local_drain.rs 180-182): one empty slot
per requested cluster. -/
def seedA (cs : List String) : AMap :=
  cs.foldl (fun a c => insertL a c []) []

/-- The seeded backend answer map (local_drain.rs 315-318). -/
def seedB (bs : List (String × String)) : BMap :=
  bs.foldl (fun a p =>
    match lookupL a p.1 with
    | some sub => insertL a p.1 (insertL sub p.2 [])
    | none => insertL a p.1 (insertL [] p.2 [])) []

/-- The metric-major, cluster-minor pair order of the two nested query
loops (local_drain.rs 185-186, 321-322). -/
def pairsOf {α : Type} (ms : List String) (cs : List α) :
    List (String × α) :=
  ms.flatMap (fun m => cs.map (fun c => (m, c)))

namespace LocalDrain

/-- `LocalDrain::query_cluster` (local_drain.rs 178-311).  The store model
is pure, so the sled error channel of the source never fires; the `Except`
layer keeps the `Result` shape. -/
def query_cluster (d : LocalDrain) (ms cs : List String) :
    Except String QueryAnswerMetrics :=
  Except.ok (QueryAnswerMetrics.Cluster
    ((pairsOf ms cs).foldl
      (fun a p =>
        match d.pairAnswerC p.1 p.2 with
        | some v => insert2 a p.2 (p.1 ++ "\t" ++ p.2) v
        | none => a)
      (seedA cs)))

/-- `LocalDrain::query_backend` (local_drain.rs 313-353). -/
def query_backend (d : LocalDrain) (ms : List String)
    (bs : List (String × String)) : Except String QueryAnswerMetrics :=
  Except.ok (QueryAnswerMetrics.Backend
    ((pairsOf ms bs).foldl
      (fun a p =>
        match d.pairAnswerB p.1 p.2.1 p.2.2 with
        | some v => insert3 a p.2.1 p.2.2 (p.1 ++ "\t" ++ p.2.1 ++ "\t" ++ p.2.2) v
        | none => a)
      (seedB bs)))

/-- `LocalDrain::query` (local_drain.rs 157-176). -/
def query (d : LocalDrain) (q : QueryMetricsType) :
    Except String QueryAnswerMetrics :=
  match q with
  | QueryMetricsType.List =>
      Except.ok (QueryAnswerMetrics.List (d.metrics.map (·.1)))
  | QueryMetricsType.Cluster ms cs => d.query_cluster ms cs
  | QueryMetricsType.Backend ms bs => d.query_backend ms bs

end LocalDrain

/-! ## Store-error injection for the first-write path

`sled` operations return `Result`; the source propagates any error with
`?` after the registry has already been mutated.  To examine that path we
re-run `store_metric` with an oracle saying which key inserts fail
(`tree.remove` failures abort later still and change nothing relevant; the
claims below only need insert failures). -/

/-- A failing `tree.insert`: `none` models `Err(sled::Error)`. -/
def STree.insertTry (fail : SKey → Bool) (t : STree) (k : SKey) (v : Val) :
    Option STree :=
  if fail k then none else some (t.insertKV k v)

/-- One window collapse of the failure-injected gauge aggregator
(the loop-and-reinsert blocks at local_drain.rs 656-668 and 672-683):
scan `[lo, hi)`, remove it, reinsert the last value at `at_` unless that
insert fails. -/
def collapseGaugeF (fail : SKey → Bool) (key : String) (lo hi at_ : ℤ)
    (t : STree) : Bool × STree :=
  let v := t.lastRowIn (rowIn key lo hi)
  let t1 := t.removeRange (rowIn key lo hi)
  match v with
  | some (_, v) =>
      match t1.insertTry fail (SKey.row key at_) (Val.raw v.asU64) with
      | some t' => (false, t')
      | none => (true, t1)
  | none => (false, t1)

/-- One window collapse of the failure-injected count aggregator
(local_drain.rs 711-724 and 728-741): the reinserted value is the `i64`
sum of the removed window. -/
def collapseCountF (fail : SKey → Bool) (key : String) (lo hi at_ : ℤ)
    (t : STree) : Bool × STree :=
  let found := t.anyRowIn (rowIn key lo hi)
  let v := t.sumRowsI64 (rowIn key lo hi)
  let t1 := t.removeRange (rowIn key lo hi)
  if found then
    match t1.insertTry fail (SKey.row key at_) (Val.raw (writeI64 v)) with
    | some t' => (false, t')
    | none => (true, t1)
  else (false, t1)

/-- `aggregate_gauge` with failing inserts; on error the tree keeps the
mutations already performed (the removes of the scanned range).  As in the
plain model, the hourly reinsert lands at `ts - 60` (the source bug at
line 682). -/
def aggregate_gauge_f (fail : SKey → Bool) (key : String) (now : ℤ)
    (t : STree) : Bool × STree :=
  let ts := now
  let s1 := collapseGaugeF fail key (ts - 60) ts (ts - 60) t
  if s1.1 then s1
  else if minuteOf now = 0 then
    let s2 := collapseGaugeF fail key (ts - 3600) (ts - 60) (ts - 60) s1.2
    if s2.1 then s2
    else (false, s2.2.removeRange (rowBeforeCut key (ts - 3600 * 24)))
  else s1

/-- `aggregate_count` with failing inserts. -/
def aggregate_count_f (fail : SKey → Bool) (key : String) (now : ℤ)
    (t : STree) : Bool × STree :=
  let ts := now
  let s1 := collapseCountF fail key (ts - 60) ts (ts - 60) t
  if s1.1 then s1
  else if minuteOf now = 0 then
    let s2 := collapseCountF fail key (ts - 3600) (ts - 60) (ts - 3600) s1.2
    if s2.1 then s2
    else (false, s2.2.removeRange (rowBeforeCut key (ts - 3600 * 24)))
  else s1

namespace LocalDrain

/-- `store_gauge` with failing inserts. -/
def store_gauge_f (fail : SKey → Bool) (key : String) (i : ℕ) (isB : Bool)
    (now : ℤ) (d : LocalDrain) : Bool × LocalDrain :=
  match (d.tree isB).insertTry fail (SKey.row key now) (Val.raw (wrapU64 i)) with
  | none => (true, d)
  | some t =>
      if secOf now = 0 then
        let r := aggregate_gauge_f fail key now t
        (r.1, d.setTree isB r.2)
      else (false, d.setTree isB t)

/-- `add_gauge` with failing inserts. -/
def add_gauge_f (fail : SKey → Bool) (key : String) (i : ℤ) (isB : Bool)
    (now : ℤ) (d : LocalDrain) : Bool × LocalDrain :=
  let t0 := d.tree isB
  let ins : Option STree := match t0.lastRowIn (rowInIncl key (now - 60) now) with
    | none => t0.insertTry fail (SKey.row key now) (Val.raw (writeI64 i))
    | some (_, v) =>
        t0.insertTry fail (SKey.row key now) (Val.raw (writeI64 (i + v.asI64)))
  match ins with
  | none => (true, d)
  | some t1 =>
      if secOf now = 0 then
        let r := aggregate_gauge_f fail key now t1
        (r.1, d.setTree isB r.2)
      else (false, d.setTree isB t1)

/-- `store_count` with failing inserts. -/
def store_count_f (fail : SKey → Bool) (key : String) (i : ℤ) (isB : Bool)
    (now : ℤ) (d : LocalDrain) : Bool × LocalDrain :=
  let t0 := d.tree isB
  let ins : Option STree := match t0.find (SKey.row key now) with
    | none => t0.insertTry fail (SKey.row key now) (Val.raw (writeI64 i))
    | some v =>
        t0.insertTry fail (SKey.row key now) (Val.raw (writeI64 (i + v.asI64)))
  match ins with
  | none => (true, d)
  | some t1 =>
      if secOf now = 0 then
        let r := aggregate_count_f fail key now t1
        (r.1, d.setTree isB r.2)
      else (false, d.setTree isB t1)

/-- `store_metric` with failing inserts (local_drain.rs 509-562).  The
registry insert is an in-memory `BTreeMap` operation and cannot fail; the
following sentinel tree insert can, and the `?` then returns the error with
the registry already holding the new entry. -/
def store_metric_f (fail : SKey → Bool) (keyPre : String) (isB : Bool)
    (metric : MetricData) (now : ℤ) (d : LocalDrain) : Bool × LocalDrain :=
  let reg :=
    if (lookupL d.metrics keyPre).isNone then
      let kind := match metric with
        | .Gauge _ => MetricKind.Gauge
        | .GaugeAdd _ => MetricKind.Gauge
        | .Count _ => MetricKind.Count
        | .Time _ => MetricKind.Time
      let meta := if isB then MetricMeta.ClusterBackend else MetricMeta.Cluster
      let d' := { d with metrics := insertL d.metrics keyPre (meta, kind) }
      match (d'.tree isB).insertTry fail (SKey.sent keyPre) (Val.raw 0) with
      | some t => (false, d'.setTree isB t)
      | none => (true, d')
    else (false, d)
  if reg.1 then reg
  else
    let d1 := reg.2
    match metric with
    | .Gauge i => store_gauge_f fail keyPre i isB now d1
    | .GaugeAdd i => add_gauge_f fail keyPre i isB now d1
    | .Count i => store_count_f fail keyPre i isB now d1
    | .Time _ => (false, d1)

end LocalDrain

/-! ## Public operation sequences -/

/-- One public mutating operation of the drain, with the wall-clock instant
at which it runs (`query` and `dump_metrics_data` read without mutating, so
they do not change the state a sequence reaches). -/
inductive Op
  | recv (key : String) (cid : Option String) (bid : Option String)
      (metric : MetricData) (now : ℤ)
  | clearOp (now : ℤ)

def applyOp (d : LocalDrain) : Op → LocalDrain
  | .recv k c b m now => LocalDrain.receive_metric k c b m now d
  | .clearOp now => LocalDrain.clear now d

/-- The state after running a sequence of public operations on a fresh
drain. -/
def runOps (ops : List Op) : LocalDrain :=
  ops.foldl applyOp LocalDrain.new

/-- The key-grammar contract on producer-supplied names and ids (spec §4.1
and §9): printable ASCII, no `\t`, no space, no `\x7F`. -/
def goodStr (s : String) : Prop :=
  ∀ ch ∈ s.toList, 32 < ch.toNat ∧ ch.toNat < 127

instance (s : String) : Decidable (goodStr s) := by
  unfold goodStr; infer_instance

/-- Well-formedness of one operation's producer-controlled strings. -/
def goodOp : Op → Prop
  | .recv k c b _ _ =>
      goodStr k ∧ (∀ s, c = some s → goodStr s) ∧ (∀ s, b = some s → goodStr s)
  | .clearOp _ => True

/-! ## Map and tree lemmas -/

theorem lookupL_insertL_self {α : Type} (l : List (String × α)) (k : String)
    (v : α) : lookupL (insertL l k v) k = some v := by
  simp [lookupL, insertL]

theorem lookupL_insertL_ne {α : Type} (l : List (String × α)) (k k' : String)
    (v : α) (h : k' ≠ k) : lookupL (insertL l k v) k' = lookupL l k' := by
  unfold lookupL insertL
  rw [List.find?_cons_of_neg _ (by simp; exact fun hh => h hh.symm)]
  congr 1
  induction l with
  | nil => rfl
  | cons e es ih =>
    by_cases he : e.1 = k
    · rw [List.filter_cons_of_neg (by simp [he]),
        List.find?_cons_of_neg _ (by simp [he]; exact fun hh => h hh.symm)]
      exact ih
    · rw [List.filter_cons_of_pos (by simp [he])]
      by_cases he' : e.1 = k'
      · rw [List.find?_cons_of_pos _ (by simp [he']),
          List.find?_cons_of_pos _ (by simp [he'])]
      · rw [List.find?_cons_of_neg _ (by simp [he']),
          List.find?_cons_of_neg _ (by simp [he'])]
        exact ih

theorem lookupL_removeL_self {α : Type} (l : List (String × α)) (k : String) :
    lookupL (removeL l k) k = none := by
  unfold lookupL removeL
  induction l with
  | nil => rfl
  | cons e es ih =>
    by_cases he : e.1 = k
    · rw [List.filter_cons_of_neg (by simp [he])]; exact ih
    · rw [List.filter_cons_of_pos (by simp [he]),
        List.find?_cons_of_neg _ (by simp [he])]
      exact ih

theorem lookupL_removeL_ne {α : Type} (l : List (String × α)) (k k' : String)
    (h : k' ≠ k) : lookupL (removeL l k) k' = lookupL l k' := by
  unfold lookupL removeL
  congr 1
  induction l with
  | nil => rfl
  | cons e es ih =>
    by_cases he : e.1 = k
    · rw [List.filter_cons_of_neg (by simp [he]),
        List.find?_cons_of_neg _ (by simp [he]; exact fun hh => h hh.symm)]
      exact ih
    · rw [List.filter_cons_of_pos (by simp [he])]
      by_cases he' : e.1 = k'
      · rw [List.find?_cons_of_pos _ (by simp [he']),
          List.find?_cons_of_pos _ (by simp [he'])]
      · rw [List.find?_cons_of_neg _ (by simp [he']),
          List.find?_cons_of_neg _ (by simp [he'])]
        exact ih

theorem mem_insertL {α : Type} (l : List (String × α)) (k : String) (v : α)
    (e : String × α) :
    e ∈ insertL l k v ↔ e = (k, v) ∨ (e ∈ l ∧ e.1 ≠ k) := by
  simp [insertL, List.mem_filter]

theorem mem_removeL {α : Type} (l : List (String × α)) (k : String)
    (e : String × α) : e ∈ removeL l k ↔ e ∈ l ∧ e.1 ≠ k := by
  simp [removeL, List.mem_filter]

theorem lookupL_mem {α : Type} (l : List (String × α)) (k : String) (v : α)
    (h : lookupL l k = some v) : (k, v) ∈ l := by
  unfold lookupL at h
  induction l with
  | nil => simp at h
  | cons e es ih =>
    by_cases he : e.1 = k
    · rw [List.find?_cons_of_pos _ (by simp [he])] at h
      simp at h
      have hkv : (k, v) = e := by cases e; simp_all
      rw [hkv]
      exact List.mem_cons_self _ _
    · rw [List.find?_cons_of_neg _ (by simp [he])] at h
      exact List.mem_cons_of_mem _ (ih h)

namespace STree

theorem find_insertKV_self (t : STree) (k : SKey) (v : Val) :
    (t.insertKV k v).find k = some v := by
  simp [find, insertKV]

theorem find_insertKV_ne (t : STree) (k k' : SKey) (v : Val) (h : k' ≠ k) :
    (t.insertKV k v).find k' = t.find k' := by
  unfold find insertKV
  rw [List.find?_cons_of_neg _ (by simp; exact fun hh => h hh.symm)]
  congr 1
  induction t.entries with
  | nil => rfl
  | cons e es ih =>
    by_cases he : e.1 = k
    · rw [List.filter_cons_of_neg (by simp [he]),
        List.find?_cons_of_neg _ (by simp [he]; exact fun hh => h hh.symm)]
      exact ih
    · rw [List.filter_cons_of_pos (by simp [he])]
      by_cases he' : e.1 = k'
      · rw [List.find?_cons_of_pos _ (by simp [he']),
          List.find?_cons_of_pos _ (by simp [he'])]
      · rw [List.find?_cons_of_neg _ (by simp [he']),
          List.find?_cons_of_neg _ (by simp [he'])]
        exact ih

theorem find_removeRange (t : STree) (P : SKey → Bool) (k : SKey) :
    (t.removeRange P).find k = if P k then none else t.find k := by
  unfold find removeRange
  induction t.entries with
  | nil => simp
  | cons e es ih =>
    by_cases hp : P e.1
    · rw [List.filter_cons_of_neg (by simp [hp])]
      by_cases he : e.1 = k
      · rw [ih, ← he, if_pos hp]
        by_cases hpk : P e.1 <;> simp [hp, hpk]
      · rw [ih, List.find?_cons_of_neg _ (by simp [he])]
    · rw [List.filter_cons_of_pos (by simp [hp])]
      by_cases he : e.1 = k
      · subst he
        rw [List.find?_cons_of_pos _ (by simp),
          List.find?_cons_of_pos _ (by simp), if_neg (by simp [hp])]
      · rw [List.find?_cons_of_neg _ (by simp [he]),
          List.find?_cons_of_neg _ (by simp [he])]
        exact ih

theorem find_removeK (t : STree) (k k' : SKey) :
    (t.removeK k).find k' = if k' = k then none else t.find k' := by
  unfold find removeK
  induction t.entries with
  | nil => simp
  | cons e es ih =>
    by_cases he : e.1 = k
    · rw [List.filter_cons_of_neg (by simp [he])]
      by_cases he' : k' = k
      · rw [ih, if_pos he', if_pos he']
      · rw [ih, if_neg he', if_neg he',
          List.find?_cons_of_neg _ (by simp [he]; exact fun hh => he' hh.symm)]
    · rw [List.filter_cons_of_pos (by simp [he])]
      by_cases he' : e.1 = k'
      · subst he'
        rw [List.find?_cons_of_pos _ (by simp),
          List.find?_cons_of_pos _ (by simp), if_neg he]
      · rw [List.find?_cons_of_neg _ (by simp [he']),
          List.find?_cons_of_neg _ (by simp [he'])]
        exact ih

theorem mem_insertKV (t : STree) (k : SKey) (v : Val) (e : SKey × Val) :
    e ∈ (t.insertKV k v).entries ↔ e = (k, v) ∨ (e ∈ t.entries ∧ e.1 ≠ k) := by
  simp [insertKV, List.mem_filter]

theorem mem_removeRange (t : STree) (P : SKey → Bool) (e : SKey × Val) :
    e ∈ (t.removeRange P).entries ↔ e ∈ t.entries ∧ P e.1 = false := by
  simp [removeRange, List.mem_filter]

theorem mem_removeK (t : STree) (k : SKey) (e : SKey × Val) :
    e ∈ (t.removeK k).entries ↔ e ∈ t.entries ∧ e.1 ≠ k := by
  simp [removeK, List.mem_filter]

theorem get_gt_mem (t : STree) (bound : String) (k : SKey)
    (h : t.get_gt bound = some k) : ∃ v, (k, v) ∈ t.entries := by
  unfold get_gt at h
  suffices H : ∀ (l : List (SKey × Val)) (acc : Option SKey),
      (l.foldl (fun acc e =>
        if strLtB bound (encodeSK e.1) then
          match acc with
          | none => some e.1
          | some m => if strLtB (encodeSK e.1) (encodeSK m) then some e.1 else acc
        else acc) acc = some k) →
      (∃ v, (k, v) ∈ l) ∨ acc = some k by
    rcases H t.entries none h with h' | h'
    · exact h'
    · simp at h'
  intro l
  induction l with
  | nil => intro acc h; right; exact h
  | cons e es ih =>
    intro acc h
    simp only [List.foldl_cons] at h
    rcases ih _ h with h' | h'
    · exact Or.inl (h'.imp fun v hv => List.mem_cons_of_mem _ hv)
    · by_cases hb : strLtB bound (encodeSK e.1)
      · rw [if_pos hb] at h'
        cases acc with
        | none =>
          have h'' : some e.1 = some k := h'
          simp only [Option.some.injEq] at h''
          exact Or.inl ⟨e.2, by simp [← h'']⟩
        | some m =>
          have h'' : (if strLtB (encodeSK e.1) (encodeSK m) then some e.1
              else some m) = some k := h'
          by_cases hlt : strLtB (encodeSK e.1) (encodeSK m)
          · rw [if_pos hlt] at h''
            simp only [Option.some.injEq] at h''
            exact Or.inl ⟨e.2, by simp [← h'']⟩
          · rw [if_neg hlt] at h''
            right; exact h''
      · rw [if_neg hb] at h'
        right; exact h'

end STree

namespace LocalDrain

theorem tree_setTree_same (d : LocalDrain) (isB : Bool) (t : STree) :
    (d.setTree isB t).tree isB = t := by
  cases isB <;> simp [tree, setTree]

theorem tree_setTree_other (d : LocalDrain) (b b' : Bool) (t : STree)
    (h : b' ≠ b) : (d.setTree b t).tree b' = d.tree b' := by
  cases b <;> cases b' <;> simp_all [tree, setTree]

theorem metrics_setTree (d : LocalDrain) (isB : Bool) (t : STree) :
    (d.setTree isB t).metrics = d.metrics := by
  cases isB <;> simp [setTree]

theorem data_setTree (d : LocalDrain) (isB : Bool) (t : STree) :
    (d.setTree isB t).data = d.data := by
  cases isB <;> simp [setTree]

end LocalDrain

/-! ## The claims -/

/-- C5: the percentile estimator is a pure function of
`(old, sample, stddev, q)`: it returns `old` when `sample = old`, returns
`old - (stddev * 0.01) / q` coerced to an unsigned integer (clamped at
zero) when `sample < old`, and returns `old + (stddev * 0.01) / (1 - q)`
coerced to an unsigned integer when `sample > old` — i.e.
`calculate_percentile` coincides with the spec's update formula
everywhere. -/
theorem claim_C5_percentile_pure :
    ∀ (old sample : ℕ) (stddev q : PRat),
      calculate_percentile old sample stddev q =
        percentileSpecUpdate old sample stddev q := by
  intro old sample sd q
  rfl

/-- C4 counterexample: for the two distinct registered prefixes
`"m\tA"` and `"m\tAB"` (metric `m` seen for clusters `A` and `AB`), the
data row the drain writes for `"m\tAB"` at timestamp 100 lies in both
`range("m\tA" .. sentinel("m\tA"))` and
`range("m\tAB" .. sentinel("m\tAB"))`: the two ranges share a key, so the
claimed disjointness fails exactly in the string-prefix case it singles
out. -/
theorem claim_C4_counterexample :
    clusterPreBytes "m" "A" ≠ clusterPreBytes "m" "AB" ∧
    inPreRange (clusterPreBytes "m" "A")
      (rowKeyBytes (clusterPreBytes "m" "AB") 100) = true ∧
    inPreRange (clusterPreBytes "m" "AB")
      (rowKeyBytes (clusterPreBytes "m" "AB") 100) = true := by
  decide

/-- C4 amended: the ranges of two registered prefixes are disjoint
whenever neither prefix is a byte-string prefix of the other; when one
prefix extends the other (as in the counterexample), the longer prefix's
keys are contained in the shorter prefix's range. -/
theorem claim_C4_ranges_disjoint (A B k : List ℕ)
    (h1 : ¬ A <+: B) (h2 : ¬ B <+: A) :
    ¬(inPreRange A k = true ∧ inPreRange B k = true) := by
  rintro ⟨hA, hB⟩
  rcases prefix_total_of_prefix A B k (isPrefix_of_inPreRange A k hA)
    (isPrefix_of_inPreRange B k hB) with h | h
  · exact h1 h
  · exact h2 h

/-- Witness for C4 amended at the concrete prefixes `"m\tA"`, `"m\tB"`. -/
theorem claim_C4_witness :
    ¬(inPreRange (clusterPreBytes "m" "A")
        (rowKeyBytes (clusterPreBytes "m" "B") 100) = true ∧
      inPreRange (clusterPreBytes "m" "B")
        (rowKeyBytes (clusterPreBytes "m" "B") 100) = true) :=
  claim_C4_ranges_disjoint _ _ _ (by decide) (by decide)

/-- C10: if the first observation ever received for a name with no
cluster id is `GaugeAdd(v)`, the process-global map stores
`Gauge(v as usize)` — the signed delta reinterpreted modulo 2^64. -/
theorem claim_C10_gaugeadd_first (name : String) (bid : Option String)
    (v : ℤ) (now : ℤ) (d : LocalDrain)
    (h : lookupL d.data name = none) :
    lookupL (LocalDrain.receive_metric name none bid (MetricData.GaugeAdd v)
        now d).data name
      = some (AggregatedMetric.Gauge ((v % (2 ^ 64 : ℤ)).toNat)) := by
  unfold LocalDrain.receive_metric
  simp [h, AggregatedMetric.new, writeI64, U64MOD, lookupL_insertL_self]

/-- Witness for C10: a first delta of `-1` leaves the huge positive gauge
`2^64 - 1` in the process-global map. -/
theorem claim_C10_witness :
    lookupL LocalDrain.new.data "client" = none ∧
    lookupL (LocalDrain.receive_metric "client" none none
        (MetricData.GaugeAdd (-1)) 0 LocalDrain.new).data "client"
      = some (AggregatedMetric.Gauge 18446744073709551615) ∧
    (2 ^ 63 : ℕ) ≤ 18446744073709551615 := by
  refine ⟨by decide, ?_, by decide⟩
  rw [claim_C10_gaugeadd_first "client" none (-1) 0 LocalDrain.new (by decide)]
  decide

/-- C2 (code bug): for a registered Gauge prefix `"g\tA"` holding one row
at timestamp 100 with value 5, running the aggregator at `ts = 3600`
(minute = 0) empties the hour window `[0, 3540)` but inserts the
replacement row at `ts - 60 = 3540` instead of the claimed (and intended,
per the source's own "reinserting {one_hour_ago}" log line) `ts - 3600 =
0`: after `clear(3600)` the row at 0 is absent and the value sits at
3540. -/
theorem claim_C2_hour_rollup_bug :
    minuteOf 3600 = 0 ∧
    (LocalDrain.receive_metric "g" (some "A") none (MetricData.Gauge 5) 100
        LocalDrain.new).clusterTree.find (SKey.row "g\tA" 100)
      = some (Val.raw 5) ∧
    (LocalDrain.clear 3600
        (LocalDrain.receive_metric "g" (some "A") none (MetricData.Gauge 5)
          100 LocalDrain.new)).clusterTree.find (SKey.row "g\tA" 0)
      = none ∧
    (LocalDrain.clear 3600
        (LocalDrain.receive_metric "g" (some "A") none (MetricData.Gauge 5)
          100 LocalDrain.new)).clusterTree.find (SKey.row "g\tA" 3540)
      = some (Val.raw 5) := by
  decide

/-- C1 counterexample: `clear` performs no aggregation and no retention for
Time-kind prefixes (the `MetricKind::Time => {}` arm of its loop), so after
one Time sample for `"lat\tA"` at timestamp 1000 and `clear(172800)`
(a minute boundary with minute = 0), the prefix is still registered and its
`count` sub-field row at 1000 — older than `now - 86400 = 86400` — is still
present. -/
theorem claim_C1_counterexample :
    minuteOf 172800 = 0 ∧ secOf 172800 = 0 ∧
    (1000 : ℤ) < 172800 - 86400 ∧
    lookupL (LocalDrain.clear 172800
        (LocalDrain.receive_metric "lat" (some "A") none (MetricData.Time 5)
          1000 LocalDrain.new)).metrics "lat\tA"
      = some (MetricMeta.Cluster, MetricKind.Time) ∧
    (LocalDrain.clear 172800
        (LocalDrain.receive_metric "lat" (some "A") none (MetricData.Time 5)
          1000 LocalDrain.new)).clusterTree.find
        (SKey.row (timeSub "lat\tA" "count") 1000)
      = some (Val.raw 1) := by
  decide

/-- C6 counterexample: Time samples 100, 100, 100 and then 101 at one
timestamp drive the estimator to `p99.9 = 105` while `p100 = 101` (the
variance after the fourth sample is 1/4, so `stddev = 1/2`, and the upward
step `delta / (1 - q)` multiplies the 0.005 delta by 1000), violating the
claimed ordering `p99.9 ≤ p100`. -/
theorem claim_C6_counterexample :
    (LocalDrain.store_time_metric_at "lat" "A" none 500 101
        (LocalDrain.store_time_metric_at "lat" "A" none 500 100
          (LocalDrain.store_time_metric_at "lat" "A" none 500 100
            (LocalDrain.store_time_metric_at "lat" "A" none 500 100
              LocalDrain.new)))).clusterTree.find
        (SKey.row (timeSub "lat\tA" "p99.9") 500)
      = some (Val.raw 105) ∧
    (LocalDrain.store_time_metric_at "lat" "A" none 500 101
        (LocalDrain.store_time_metric_at "lat" "A" none 500 100
          (LocalDrain.store_time_metric_at "lat" "A" none 500 100
            (LocalDrain.store_time_metric_at "lat" "A" none 500 100
              LocalDrain.new)))).clusterTree.find
        (SKey.row (timeSub "lat\tA" "p100") 500)
      = some (Val.raw 101) ∧
    ¬((105 : ℕ) ≤ 101) := by
  decide

/-! ## Helpers for the Time path -/

theorem timeSub_fld_inj (b f g : String) (h : timeSub b f = timeSub b g) :
    f = g := by
  unfold timeSub at h
  have hd := congrArg String.data h
  simp only [String.data_append] at hd
  have h2 : f.data = g.data :=
    List.append_cancel_left (List.append_cancel_right hd)
  cases f; cases g; exact congrArg String.mk h2

theorem row_timeSub_ne (kp : String) (ts : ℤ) (f g : String) (h : f ≠ g) :
    SKey.row (timeSub kp f) ts ≠ SKey.row (timeSub kp g) ts := by
  intro heq
  injection heq with h1 h2
  exact h (timeSub_fld_inj kp f g h1)

theorem tree_withMetrics (d : LocalDrain) (m : List (String × MetricMeta × MetricKind))
    (b : Bool) : ({ d with metrics := m } : LocalDrain).tree b = d.tree b := by
  cases b <;> rfl

theorem find_row_foldl_sent (l : List String) (t : STree) (base : String)
    (p : String) (ts : ℤ) :
    ((l.foldl (fun t f => t.insertKV (SKey.sent (timeSub base f)) (Val.raw 0))
        t).find (SKey.row p ts)) = t.find (SKey.row p ts) := by
  induction l generalizing t with
  | nil => rfl
  | cons f fs ih =>
    rw [List.foldl_cons, ih,
      STree.find_insertKV_ne _ _ _ _ (fun h => SKey.noConfusion h)]

/-- The ten-cell initialisation chain of `store_time_metric_at` (the fresh
`count` branch, local_drain.rs 856-869) leaves every percentile sub-field
cell equal to the sample. -/
theorem find_init_chain (t0 : STree) (kp : String) (ts : ℤ) (tv : ℕ)
    (fld : String)
    (hf : fld ∈ (["p50", "p90", "p99", "p99.9", "p99.99", "p99.999",
        "p100"] : List String)) :
    (((((((((((t0.insertKV (SKey.row (timeSub kp "count") ts)
      (Val.raw 1)).insertKV
      (SKey.row (timeSub kp "mean") ts) (Val.flt (PRat.ofNat tv))).insertKV
      (SKey.row (timeSub kp "var") ts) (Val.flt ⟨0, 1⟩)).insertKV
      (SKey.row (timeSub kp "p50") ts) (Val.raw (wrapU64 tv))).insertKV
      (SKey.row (timeSub kp "p90") ts) (Val.raw (wrapU64 tv))).insertKV
      (SKey.row (timeSub kp "p99") ts) (Val.raw (wrapU64 tv))).insertKV
      (SKey.row (timeSub kp "p99.9") ts) (Val.raw (wrapU64 tv))).insertKV
      (SKey.row (timeSub kp "p99.99") ts) (Val.raw (wrapU64 tv))).insertKV
      (SKey.row (timeSub kp "p99.999") ts) (Val.raw (wrapU64 tv))).insertKV
      (SKey.row (timeSub kp "p100") ts) (Val.raw (wrapU64 tv))).find
        (SKey.row (timeSub kp fld) ts)) = some (Val.raw (wrapU64 tv)) := by
  have hne : ∀ f g : String, f ≠ g →
      SKey.row (timeSub kp f) ts ≠ SKey.row (timeSub kp g) ts :=
    fun f g => row_timeSub_ne kp ts f g
  simp only [List.mem_cons, List.not_mem_nil, or_false] at hf
  rcases hf with rfl | rfl | rfl | rfl | rfl | rfl | rfl <;>
    repeat (first
      | rw [STree.find_insertKV_self]
      | rw [STree.find_insertKV_ne _ _ _ _ (hne _ _ (by decide))])

/-- C6 amended: after the first Time observation for a fresh prefix, all
seven stored percentile sub-fields equal the sample (`t as usize`), so the
ordering `p50 ≤ p90 ≤ p99 ≤ p99.9 ≤ p99.99 ≤ p99.999 ≤ p100` holds at that
point; the estimator does no clamping and later observations can break the
chain (see the counterexample). -/
theorem claim_C6_first_observation_ordered (key cid : String)
    (bid : Option String) (ts : ℤ) (tv : ℕ) (d : LocalDrain)
    (h : (d.tree bid.isSome).find (SKey.row (timeSub
        (match bid with
         | some b => key ++ "\t" ++ cid ++ "\t" ++ b
         | none => key ++ "\t" ++ cid) "count") ts) = none) :
    ∀ fld ∈ (["p50", "p90", "p99", "p99.9", "p99.99", "p99.999",
        "p100"] : List String),
      ((LocalDrain.store_time_metric_at key cid bid ts tv d).tree
          bid.isSome).find (SKey.row (timeSub
        (match bid with
         | some b => key ++ "\t" ++ cid ++ "\t" ++ b
         | none => key ++ "\t" ++ cid) fld) ts)
      = some (Val.raw (wrapU64 tv)) := by
  intro fld hf
  unfold LocalDrain.store_time_metric_at
  cases bid with
  | none =>
    simp only [Option.isSome_none] at h ⊢
    by_cases hreg : (lookupL d.metrics (key ++ "\t" ++ cid)).isNone
    · simp only [hreg, if_true, LocalDrain.tree_setTree_same]
      unfold timeCellsUpdate
      dsimp only
      rw [find_row_foldl_sent, tree_withMetrics, h]
      exact find_init_chain _ _ _ _ _ hf
    · simp only [hreg, Bool.false_eq_true, if_false,
        LocalDrain.tree_setTree_same]
      unfold timeCellsUpdate
      dsimp only
      rw [h]
      exact find_init_chain _ _ _ _ _ hf
  | some b =>
    simp only [Option.isSome_some] at h ⊢
    by_cases hreg : (lookupL d.metrics (key ++ "\t" ++ cid ++ "\t" ++ b)).isNone
    · simp only [hreg, if_true, LocalDrain.tree_setTree_same]
      unfold timeCellsUpdate
      dsimp only
      rw [find_row_foldl_sent, tree_withMetrics, h]
      exact find_init_chain _ _ _ _ _ hf
    · simp only [hreg, Bool.false_eq_true, if_false,
        LocalDrain.tree_setTree_same]
      unfold timeCellsUpdate
      dsimp only
      rw [h]
      exact find_init_chain _ _ _ _ _ hf

/-- Witness for C6 amended: the first sample 42 for `("lat", "A")` leaves
`p100` (like every other percentile cell) at 42. -/
theorem claim_C6_witness :
    ((LocalDrain.store_time_metric_at "lat" "A" none 500 42
        LocalDrain.new).tree (Option.none (α := String)).isSome).find
      (SKey.row (timeSub ("lat" ++ "\t" ++ "A") "p100") 500)
      = some (Val.raw (wrapU64 42)) :=
  claim_C6_first_observation_ordered "lat" "A" none 500 42 LocalDrain.new
    (by decide) "p100" (by decide)

/-! ## Frame lemmas for the aggregators -/

theorem rowIn_false_of_ne (key : String) (a b : ℤ) (k : SKey)
    (hk : ∀ ts : ℤ, k ≠ SKey.row key ts) : rowIn key a b k = false := by
  cases k with
  | row p ts =>
    simp only [rowIn, decide_eq_false_iff_not]
    rintro ⟨rfl, -, -⟩
    exact hk ts rfl
  | sent p => rfl

theorem rowInIncl_false_of_ne (key : String) (a b : ℤ) (k : SKey)
    (hk : ∀ ts : ℤ, k ≠ SKey.row key ts) : rowInIncl key a b k = false := by
  cases k with
  | row p ts =>
    simp only [rowInIncl, decide_eq_false_iff_not]
    rintro ⟨rfl, -, -⟩
    exact hk ts rfl
  | sent p => rfl

theorem rowBeforeCut_false_of_ne (key : String) (c : ℤ) (k : SKey)
    (hk : ∀ ts : ℤ, k ≠ SKey.row key ts) : rowBeforeCut key c k = false := by
  cases k with
  | row p ts =>
    simp only [rowBeforeCut, decide_eq_false_iff_not]
    rintro ⟨rfl, -⟩
    exact hk ts rfl
  | sent p => rfl

/-- `aggregate_gauge` touches only data rows of its own prefix: any other
key (another prefix's rows, and every sentinel) keeps its value. -/
theorem find_aggregate_gauge_other (key : String) (now : ℤ) (t : STree)
    (k : SKey) (hk : ∀ ts : ℤ, k ≠ SKey.row key ts) :
    (LocalDrain.aggregate_gauge key now t).find k = t.find k := by
  have hins : ∀ (ts : ℤ) (v : Val) (t' : STree),
      (t'.insertKV (SKey.row key ts) v).find k = t'.find k :=
    fun ts v t' => STree.find_insertKV_ne _ _ _ _ (hk ts)
  unfold LocalDrain.aggregate_gauge
  split <;> dsimp only <;> split <;> (try split) <;>
    simp [STree.find_removeRange, hins, rowIn_false_of_ne _ _ _ _ hk,
      rowBeforeCut_false_of_ne _ _ _ hk]

/-- `aggregate_count` touches only data rows of its own prefix. -/
theorem find_aggregate_count_other (key : String) (now : ℤ) (t : STree)
    (k : SKey) (hk : ∀ ts : ℤ, k ≠ SKey.row key ts) :
    (LocalDrain.aggregate_count key now t).find k = t.find k := by
  have hins : ∀ (ts : ℤ) (v : Val) (t' : STree),
      (t'.insertKV (SKey.row key ts) v).find k = t'.find k :=
    fun ts v t' => STree.find_insertKV_ne _ _ _ _ (hk ts)
  unfold LocalDrain.aggregate_count
  split <;> dsimp only <;> split <;> (try split) <;>
    simp [STree.find_removeRange, hins, rowIn_false_of_ne _ _ _ _ hk,
      rowBeforeCut_false_of_ne _ _ _ hk]

/-- `aggregate_gauge` never touches rows of its prefix at or after `now`:
every window it collapses and the retention cut lie strictly in the past,
and its reinsertions land at `now - 60`. -/
theorem find_aggregate_gauge_future (key : String) (now : ℤ) (t : STree)
    (ts : ℤ) (h : now ≤ ts) :
    (LocalDrain.aggregate_gauge key now t).find (SKey.row key ts)
      = t.find (SKey.row key ts) := by
  have hw : ∀ a b : ℤ, b ≤ now → rowIn key a b (SKey.row key ts) = false := by
    intro a b hb
    simp only [rowIn, decide_eq_false_iff_not]
    rintro ⟨-, -, hlt⟩
    omega
  have hcut : rowBeforeCut key (now - 86400) (SKey.row key ts) = false := by
    simp only [rowBeforeCut, decide_eq_false_iff_not]
    rintro ⟨-, hlt⟩
    omega
  have hins : ∀ (u : ℤ) (v : Val) (t' : STree), u < now →
      (t'.insertKV (SKey.row key u) v).find (SKey.row key ts)
        = t'.find (SKey.row key ts) := by
    intro u v t' hu
    refine STree.find_insertKV_ne _ _ _ _ ?_
    intro heq
    injection heq with h1 h2
    omega
  unfold LocalDrain.aggregate_gauge
  split <;> dsimp only <;> split <;> (try split) <;>
    simp [STree.find_removeRange, hcut,
      hw _ _ (le_refl now), hw _ _ (by omega : now - 60 ≤ now),
      hins _ _ _ (by omega : now - 60 < now)]

/-- `aggregate_count` never touches rows of its prefix at or after `now`. -/
theorem find_aggregate_count_future (key : String) (now : ℤ) (t : STree)
    (ts : ℤ) (h : now ≤ ts) :
    (LocalDrain.aggregate_count key now t).find (SKey.row key ts)
      = t.find (SKey.row key ts) := by
  have hw : ∀ a b : ℤ, b ≤ now → rowIn key a b (SKey.row key ts) = false := by
    intro a b hb
    simp only [rowIn, decide_eq_false_iff_not]
    rintro ⟨-, -, hlt⟩
    omega
  have hcut : rowBeforeCut key (now - 86400) (SKey.row key ts) = false := by
    simp only [rowBeforeCut, decide_eq_false_iff_not]
    rintro ⟨-, hlt⟩
    omega
  have hins : ∀ (u : ℤ) (v : Val) (t' : STree), u < now →
      (t'.insertKV (SKey.row key u) v).find (SKey.row key ts)
        = t'.find (SKey.row key ts) := by
    intro u v t' hu
    refine STree.find_insertKV_ne _ _ _ _ ?_
    intro heq
    injection heq with h1 h2
    omega
  unfold LocalDrain.aggregate_count
  split <;> dsimp only <;> split <;> (try split) <;>
    simp [STree.find_removeRange, hcut,
      hw _ _ (le_refl now), hw _ _ (by omega : now - 60 ≤ now),
      hins _ _ _ (by omega : now - 60 < now),
      hins _ _ _ (by omega : now - 3600 < now)]

/-- C9: a `GaugeAdd(i)` at timestamp `now` reads the most recent row of
the prefix in the closed window `[now - 60, now]` (the descending range's
first hit, i.e. the row with the greatest timestamp there); it inserts
`v + i` at `(prefix, now)` if such a row with value `v` was found and `i`
otherwise; away from the minute boundary that triggers the aggregator
(`second == 0`), no other key of either tree is modified by the write. -/
theorem claim_C9_gauge_add (key : String) (i : ℤ) (isB : Bool) (now : ℤ)
    (d : LocalDrain) :
    (((LocalDrain.add_gauge key i isB now d).tree isB).find
        (SKey.row key now)
      = some (Val.raw
          (match (d.tree isB).lastRowIn (rowInIncl key (now - 60) now) with
           | none => writeI64 i
           | some (_, v) => writeI64 (i + v.asI64)))) ∧
    (secOf now ≠ 0 →
      ∀ k, k ≠ SKey.row key now →
        ((LocalDrain.add_gauge key i isB now d).tree isB).find k
          = (d.tree isB).find k) ∧
    (∀ b, b ≠ isB → (LocalDrain.add_gauge key i isB now d).tree b
      = d.tree b) := by
  refine ⟨?_, ?_, ?_⟩
  · unfold LocalDrain.add_gauge
    rw [LocalDrain.tree_setTree_same]
    cases hprev : (d.tree isB).lastRowIn (rowInIncl key (now - 60) now) with
    | none =>
      dsimp only
      by_cases hsec : secOf now = 0
      · rw [if_pos hsec, find_aggregate_gauge_future key now _ now (le_refl _),
          STree.find_insertKV_self]
      · rw [if_neg hsec, STree.find_insertKV_self]
    | some pv =>
      dsimp only
      by_cases hsec : secOf now = 0
      · rw [if_pos hsec, find_aggregate_gauge_future key now _ now (le_refl _),
          STree.find_insertKV_self]
      · rw [if_neg hsec, STree.find_insertKV_self]
  · intro hsec k hk
    unfold LocalDrain.add_gauge
    rw [LocalDrain.tree_setTree_same]
    cases hprev : (d.tree isB).lastRowIn (rowInIncl key (now - 60) now) with
    | none =>
      dsimp only
      rw [if_neg hsec, STree.find_insertKV_ne _ _ _ _ hk]
    | some pv =>
      dsimp only
      rw [if_neg hsec, STree.find_insertKV_ne _ _ _ _ hk]
  · intro b hb
    unfold LocalDrain.add_gauge
    rw [LocalDrain.tree_setTree_other _ _ _ _ hb]

/-- Concrete drain for the C9 witness: a Gauge 5 stored for `("g", "A")`
at timestamp 100. -/
def exC9drain : LocalDrain :=
  LocalDrain.receive_metric "g" (some "A") none (MetricData.Gauge 5) 100
    LocalDrain.new

/-- Witness for C9: on that drain, `GaugeAdd(3)` at 110 finds the row at
100 (value 5) in `[50, 110]` and stores 8 at 110, leaving the row at 100
untouched. -/
theorem claim_C9_witness :
    ((LocalDrain.add_gauge "g\tA" 3 false 110 exC9drain).tree false).find
        (SKey.row "g\tA" 110) = some (Val.raw 8) ∧
    ((LocalDrain.add_gauge "g\tA" 3 false 110 exC9drain).tree false).find
        (SKey.row "g\tA" 100) = some (Val.raw 5) :=
  ⟨(claim_C9_gauge_add "g\tA" 3 false 110 exC9drain).1.trans (by decide),
   ((claim_C9_gauge_add "g\tA" 3 false 110 exC9drain).2.1 (by decide) _
      (by decide)).trans (by decide)⟩

/-- A failure-injected window collapse leaves every key that is not a data
row of its prefix untouched. -/
theorem find_collapseGaugeF_other (fail : SKey → Bool) (key : String)
    (lo hi at_ : ℤ) (t : STree) (k : SKey)
    (hk : ∀ ts : ℤ, k ≠ SKey.row key ts) :
    ((collapseGaugeF fail key lo hi at_ t).2).find k = t.find k := by
  have hins : ∀ (ts : ℤ) (v : Val) (t' : STree),
      (t'.insertKV (SKey.row key ts) v).find k = t'.find k :=
    fun ts v t' => STree.find_insertKV_ne _ _ _ _ (hk ts)
  unfold collapseGaugeF STree.insertTry
  dsimp only
  cases hv : t.lastRowIn (rowIn key lo hi) with
  | none => simp [STree.find_removeRange, rowIn_false_of_ne _ _ _ _ hk]
  | some pv =>
    dsimp only
    by_cases hf : fail (SKey.row key at_) <;>
      simp [hf, hins, STree.find_removeRange,
        rowIn_false_of_ne _ _ _ _ hk]

/-- Same, for the count collapse. -/
theorem find_collapseCountF_other (fail : SKey → Bool) (key : String)
    (lo hi at_ : ℤ) (t : STree) (k : SKey)
    (hk : ∀ ts : ℤ, k ≠ SKey.row key ts) :
    ((collapseCountF fail key lo hi at_ t).2).find k = t.find k := by
  have hins : ∀ (ts : ℤ) (v : Val) (t' : STree),
      (t'.insertKV (SKey.row key ts) v).find k = t'.find k :=
    fun ts v t' => STree.find_insertKV_ne _ _ _ _ (hk ts)
  unfold collapseCountF STree.insertTry
  dsimp only
  by_cases hfound : t.anyRowIn (rowIn key lo hi) <;>
    by_cases hf : fail (SKey.row key at_) <;>
      simp [hfound, hf, hins, STree.find_removeRange,
        rowIn_false_of_ne _ _ _ _ hk]

/-- The failure-injected `aggregate_gauge` also leaves every key that is
not a data row of its prefix untouched, whether or not it errors. -/
theorem find_aggregate_gauge_f_other (fail : SKey → Bool) (key : String)
    (now : ℤ) (t : STree) (k : SKey)
    (hk : ∀ ts : ℤ, k ≠ SKey.row key ts) :
    ((aggregate_gauge_f fail key now t).2).find k = t.find k := by
  unfold aggregate_gauge_f
  dsimp only
  split
  · exact find_collapseGaugeF_other _ _ _ _ _ _ _ hk
  · split
    · split
      · rw [find_collapseGaugeF_other _ _ _ _ _ _ _ hk,
          find_collapseGaugeF_other _ _ _ _ _ _ _ hk]
      · rw [STree.find_removeRange]
        rw [rowBeforeCut_false_of_ne _ _ _ hk]
        simp only [Bool.false_eq_true, if_false]
        rw [find_collapseGaugeF_other _ _ _ _ _ _ _ hk,
          find_collapseGaugeF_other _ _ _ _ _ _ _ hk]
    · exact find_collapseGaugeF_other _ _ _ _ _ _ _ hk

/-- The failure-injected `aggregate_count` also leaves every key that is
not a data row of its prefix untouched. -/
theorem find_aggregate_count_f_other (fail : SKey → Bool) (key : String)
    (now : ℤ) (t : STree) (k : SKey)
    (hk : ∀ ts : ℤ, k ≠ SKey.row key ts) :
    ((aggregate_count_f fail key now t).2).find k = t.find k := by
  unfold aggregate_count_f
  dsimp only
  split
  · exact find_collapseCountF_other _ _ _ _ _ _ _ hk
  · split
    · split
      · rw [find_collapseCountF_other _ _ _ _ _ _ _ hk,
          find_collapseCountF_other _ _ _ _ _ _ _ hk]
      · rw [STree.find_removeRange]
        rw [rowBeforeCut_false_of_ne _ _ _ hk]
        simp only [Bool.false_eq_true, if_false]
        rw [find_collapseCountF_other _ _ _ _ _ _ _ hk,
          find_collapseCountF_other _ _ _ _ _ _ _ hk]
    · exact find_collapseCountF_other _ _ _ _ _ _ _ hk

/-- `store_gauge_f` never changes a key that is not a data row of its
prefix, and never changes the registry. -/
theorem LocalDrain.store_gauge_f_frame (fail : SKey → Bool) (key : String)
    (i : ℕ) (isB : Bool) (now : ℤ) (d : LocalDrain) (k : SKey)
    (hk : ∀ ts : ℤ, k ≠ SKey.row key ts) :
    (((LocalDrain.store_gauge_f fail key i isB now d).2).tree isB).find k
        = (d.tree isB).find k ∧
    ((LocalDrain.store_gauge_f fail key i isB now d).2).metrics
        = d.metrics := by
  unfold LocalDrain.store_gauge_f STree.insertTry
  by_cases hf : fail (SKey.row key now)
  · simp only [hf, if_true]
    exact ⟨by trivial, by trivial⟩
  · simp only [hf, Bool.false_eq_true, if_false]
    by_cases hs : secOf now = 0 <;>
      simp only [hs, if_true, Bool.false_eq_true, if_false,
        LocalDrain.tree_setTree_same, LocalDrain.metrics_setTree] <;>
      refine ⟨?_, trivial⟩
    · rw [find_aggregate_gauge_f_other _ _ _ _ _ hk,
        STree.find_insertKV_ne _ _ _ _ (hk now)]
    · rw [STree.find_insertKV_ne _ _ _ _ (hk now)]

/-- `add_gauge_f` likewise. -/
theorem LocalDrain.add_gauge_f_frame (fail : SKey → Bool) (key : String)
    (i : ℤ) (isB : Bool) (now : ℤ) (d : LocalDrain) (k : SKey)
    (hk : ∀ ts : ℤ, k ≠ SKey.row key ts) :
    (((LocalDrain.add_gauge_f fail key i isB now d).2).tree isB).find k
        = (d.tree isB).find k ∧
    ((LocalDrain.add_gauge_f fail key i isB now d).2).metrics
        = d.metrics := by
  unfold LocalDrain.add_gauge_f STree.insertTry
  dsimp only
  cases hv : (d.tree isB).lastRowIn (rowInIncl key (now - 60) now) <;>
    dsimp only <;>
    by_cases hf : fail (SKey.row key now)
  · simp only [hf, if_true]
    exact ⟨by trivial, by trivial⟩
  · simp only [hf, Bool.false_eq_true, if_false]
    by_cases hs : secOf now = 0 <;>
      simp only [hs, if_true, Bool.false_eq_true, if_false,
        LocalDrain.tree_setTree_same, LocalDrain.metrics_setTree] <;>
      refine ⟨?_, trivial⟩
    · rw [find_aggregate_gauge_f_other _ _ _ _ _ hk,
        STree.find_insertKV_ne _ _ _ _ (hk now)]
    · rw [STree.find_insertKV_ne _ _ _ _ (hk now)]
  · simp only [hf, if_true]
    exact ⟨by trivial, by trivial⟩
  · simp only [hf, Bool.false_eq_true, if_false]
    by_cases hs : secOf now = 0 <;>
      simp only [hs, if_true, Bool.false_eq_true, if_false,
        LocalDrain.tree_setTree_same, LocalDrain.metrics_setTree] <;>
      refine ⟨?_, trivial⟩
    · rw [find_aggregate_gauge_f_other _ _ _ _ _ hk,
        STree.find_insertKV_ne _ _ _ _ (hk now)]
    · rw [STree.find_insertKV_ne _ _ _ _ (hk now)]

/-- `store_count_f` likewise. -/
theorem LocalDrain.store_count_f_frame (fail : SKey → Bool) (key : String)
    (i : ℤ) (isB : Bool) (now : ℤ) (d : LocalDrain) (k : SKey)
    (hk : ∀ ts : ℤ, k ≠ SKey.row key ts) :
    (((LocalDrain.store_count_f fail key i isB now d).2).tree isB).find k
        = (d.tree isB).find k ∧
    ((LocalDrain.store_count_f fail key i isB now d).2).metrics
        = d.metrics := by
  unfold LocalDrain.store_count_f STree.insertTry
  dsimp only
  cases hv : (d.tree isB).find (SKey.row key now) <;>
    dsimp only <;>
    by_cases hf : fail (SKey.row key now)
  · simp only [hf, if_true]
    exact ⟨by trivial, by trivial⟩
  · simp only [hf, Bool.false_eq_true, if_false]
    by_cases hs : secOf now = 0 <;>
      simp only [hs, if_true, Bool.false_eq_true, if_false,
        LocalDrain.tree_setTree_same, LocalDrain.metrics_setTree] <;>
      refine ⟨?_, trivial⟩
    · rw [find_aggregate_count_f_other _ _ _ _ _ hk,
        STree.find_insertKV_ne _ _ _ _ (hk now)]
    · rw [STree.find_insertKV_ne _ _ _ _ (hk now)]
  · simp only [hf, if_true]
    exact ⟨by trivial, by trivial⟩
  · simp only [hf, Bool.false_eq_true, if_false]
    by_cases hs : secOf now = 0 <;>
      simp only [hs, if_true, Bool.false_eq_true, if_false,
        LocalDrain.tree_setTree_same, LocalDrain.metrics_setTree] <;>
      refine ⟨?_, trivial⟩
    · rw [find_aggregate_count_f_other _ _ _ _ _ hk,
        STree.find_insertKV_ne _ _ _ _ (hk now)]
    · rw [STree.find_insertKV_ne _ _ _ _ (hk now)]

/-- C7 counterexample: make the sled insert of the sentinel key fail on the
first write of `"g\tA"`.  `store_metric` has already inserted the registry
entry when the `?` propagates the error, so the call errors out with the
registry holding an entry whose sentinel (and data row) are absent from
the store: the first-write is not atomic. -/
theorem claim_C7_counterexample :
    (LocalDrain.store_metric_f (fun k => decide (k = SKey.sent "g\tA"))
        "g\tA" false (MetricData.Gauge 5) 100 LocalDrain.new).1 = true ∧
    lookupL (LocalDrain.store_metric_f (fun k => decide (k = SKey.sent "g\tA"))
        "g\tA" false (MetricData.Gauge 5) 100 LocalDrain.new).2.metrics "g\tA"
      = some (MetricMeta.Cluster, MetricKind.Gauge) ∧
    (LocalDrain.store_metric_f (fun k => decide (k = SKey.sent "g\tA"))
        "g\tA" false (MetricData.Gauge 5) 100
        LocalDrain.new).2.clusterTree.find (SKey.sent "g\tA") = none ∧
    (LocalDrain.store_metric_f (fun k => decide (k = SKey.sent "g\tA"))
        "g\tA" false (MetricData.Gauge 5) 100
        LocalDrain.new).2.clusterTree.find (SKey.row "g\tA" 100) = none := by
  decide

/-- After any of the three failing-store data writes, a sentinel present in
the selected tree and a registered prefix stay present. -/
theorem C7auxGauge (fail : SKey → Bool) (keyPre : String) (i : ℕ)
    (isB : Bool) (now : ℤ) (d1 : LocalDrain)
    (hsent : (d1.tree isB).find (SKey.sent keyPre) = some (Val.raw 0))
    (hmet : (lookupL d1.metrics keyPre).isSome = true) :
    (((LocalDrain.store_gauge_f fail keyPre i isB now d1).2).tree isB).find
        (SKey.sent keyPre) = some (Val.raw 0) ∧
    (lookupL ((LocalDrain.store_gauge_f fail keyPre i isB now
        d1).2).metrics keyPre).isSome = true := by
  have hfr := LocalDrain.store_gauge_f_frame fail keyPre i isB now d1
    (SKey.sent keyPre) (fun ts hh => SKey.noConfusion hh)
  rw [hfr.1, hfr.2]
  exact ⟨hsent, hmet⟩

theorem C7auxAdd (fail : SKey → Bool) (keyPre : String) (i : ℤ)
    (isB : Bool) (now : ℤ) (d1 : LocalDrain)
    (hsent : (d1.tree isB).find (SKey.sent keyPre) = some (Val.raw 0))
    (hmet : (lookupL d1.metrics keyPre).isSome = true) :
    (((LocalDrain.add_gauge_f fail keyPre i isB now d1).2).tree isB).find
        (SKey.sent keyPre) = some (Val.raw 0) ∧
    (lookupL ((LocalDrain.add_gauge_f fail keyPre i isB now
        d1).2).metrics keyPre).isSome = true := by
  have hfr := LocalDrain.add_gauge_f_frame fail keyPre i isB now d1
    (SKey.sent keyPre) (fun ts hh => SKey.noConfusion hh)
  rw [hfr.1, hfr.2]
  exact ⟨hsent, hmet⟩

theorem C7auxCount (fail : SKey → Bool) (keyPre : String) (i : ℤ)
    (isB : Bool) (now : ℤ) (d1 : LocalDrain)
    (hsent : (d1.tree isB).find (SKey.sent keyPre) = some (Val.raw 0))
    (hmet : (lookupL d1.metrics keyPre).isSome = true) :
    (((LocalDrain.store_count_f fail keyPre i isB now d1).2).tree isB).find
        (SKey.sent keyPre) = some (Val.raw 0) ∧
    (lookupL ((LocalDrain.store_count_f fail keyPre i isB now
        d1).2).metrics keyPre).isSome = true := by
  have hfr := LocalDrain.store_count_f_frame fail keyPre i isB now d1
    (SKey.sent keyPre) (fun ts hh => SKey.noConfusion hh)
  rw [hfr.1, hfr.2]
  exact ⟨hsent, hmet⟩

/-- C7 amended: on a first write (prefix absent from the registry), the
registry entry and the sentinel row are inserted before the data row.  If
the sentinel insert fails, the call returns the error having written
nothing to the store — but the registry keeps the new entry, so the
first-write is not atomic with respect to store errors.  If the sentinel
insert succeeds, the sentinel row and the registry entry are in place at
the end of the call no matter which later insert fails. -/
theorem claim_C7_first_write (fail : SKey → Bool) (keyPre : String)
    (isB : Bool) (metric : MetricData) (now : ℤ) (d : LocalDrain)
    (h : lookupL d.metrics keyPre = none) :
    (fail (SKey.sent keyPre) = true →
      LocalDrain.store_metric_f fail keyPre isB metric now d
        = (true, { d with metrics := (insertL d.metrics keyPre
            (if isB then MetricMeta.ClusterBackend else MetricMeta.Cluster,
             match metric with
             | MetricData.Gauge _ => MetricKind.Gauge
             | MetricData.GaugeAdd _ => MetricKind.Gauge
             | MetricData.Count _ => MetricKind.Count
             | MetricData.Time _ => MetricKind.Time)) })) ∧
    (fail (SKey.sent keyPre) = false →
      ((LocalDrain.store_metric_f fail keyPre isB metric now
          d).2.tree isB).find (SKey.sent keyPre) = some (Val.raw 0) ∧
      (lookupL (LocalDrain.store_metric_f fail keyPre isB metric now
          d).2.metrics keyPre).isSome = true) := by
  have hno : ∀ ts : ℤ, SKey.sent keyPre ≠ SKey.row keyPre ts :=
    fun ts hh => SKey.noConfusion hh
  constructor
  · intro hf
    unfold LocalDrain.store_metric_f
    rw [h]
    unfold STree.insertTry
    simp only [Option.isNone_none, if_true, hf]
  · intro hf
    unfold LocalDrain.store_metric_f
    rw [h]
    unfold STree.insertTry
    simp only [Option.isNone_none, if_true, hf, Bool.false_eq_true, if_false]
    cases metric with
    | Gauge i =>
      dsimp only
      refine C7auxGauge fail keyPre i isB now _ ?_ ?_
      · rw [LocalDrain.tree_setTree_same, STree.find_insertKV_self]
      · rw [LocalDrain.metrics_setTree]
        simp [lookupL_insertL_self]
    | GaugeAdd i =>
      dsimp only
      refine C7auxAdd fail keyPre i isB now _ ?_ ?_
      · rw [LocalDrain.tree_setTree_same, STree.find_insertKV_self]
      · rw [LocalDrain.metrics_setTree]
        simp [lookupL_insertL_self]
    | Count i =>
      dsimp only
      refine C7auxCount fail keyPre i isB now _ ?_ ?_
      · rw [LocalDrain.tree_setTree_same, STree.find_insertKV_self]
      · rw [LocalDrain.metrics_setTree]
        simp [lookupL_insertL_self]
    | Time i =>
      dsimp only
      constructor
      · rw [LocalDrain.tree_setTree_same, STree.find_insertKV_self]
      · rw [LocalDrain.metrics_setTree]
        simp [lookupL_insertL_self]

/-- Witness for C7 amended: with the sentinel insert of `"g\tA"` failing,
the first write errors out (leaving the registry dirty, per the
counterexample); with no failures, the sentinel row is in place after the
write. -/
theorem claim_C7_witness :
    (LocalDrain.store_metric_f (fun k => decide (k = SKey.sent "g\tA"))
        "g\tA" false (MetricData.Gauge 5) 100 LocalDrain.new).1 = true ∧
    ((LocalDrain.store_metric_f (fun _ => false) "g\tA" false
        (MetricData.Gauge 5) 100 LocalDrain.new).2.tree false).find
      (SKey.sent "g\tA") = some (Val.raw 0) :=
  ⟨by
    rw [(claim_C7_first_write (fun k => decide (k = SKey.sent "g\tA"))
      "g\tA" false (MetricData.Gauge 5) 100 LocalDrain.new (by decide)).1
      (by decide)],
   ((claim_C7_first_write (fun _ => false) "g\tA" false (MetricData.Gauge 5)
      100 LocalDrain.new (by decide)).2 (by decide)).1⟩

/-- C3 counterexample: after the public operation
`receive_metric("lat", Some("A"), None, Time(42))`, the prefix `"lat\tA"`
is registered, but no sentinel row at the claimed key `"lat\tA\x7F"`
exists in the cluster namespace — a Time first-write creates only the ten
sub-field sentinels such as `"lat\tA.count \x7F"`. -/
theorem claim_C3_counterexample :
    lookupL (LocalDrain.receive_metric "lat" (some "A") none
        (MetricData.Time 42) 1000 LocalDrain.new).metrics "lat\tA"
      = some (MetricMeta.Cluster, MetricKind.Time) ∧
    (LocalDrain.receive_metric "lat" (some "A") none (MetricData.Time 42)
        1000 LocalDrain.new).clusterTree.find (SKey.sent "lat\tA") = none ∧
    (LocalDrain.receive_metric "lat" (some "A") none (MetricData.Time 42)
        1000 LocalDrain.new).clusterTree.find
        (SKey.sent (timeSub "lat\tA" "count")) = some (Val.raw 0) := by
  decide

theorem STree.mem_insertKV' (t : STree) (k : SKey) (v : Val) (e : SKey × Val) :
    e ∈ (t.insertKV k v).entries ↔
      (e.1 = k ∧ e.2 = v) ∨ (e ∈ t.entries ∧ e.1 ≠ k) := by
  rw [STree.mem_insertKV]
  constructor
  · rintro (rfl | h)
    · exact Or.inl ⟨rfl, rfl⟩
    · exact Or.inr h
  · rintro (⟨h1, h2⟩ | h)
    · left
      cases e
      simp_all
    · exact Or.inr h

theorem mem_aggregate_gauge_sub (key : String) (now : ℤ) (t : STree)
    (e : SKey × Val)
    (he : e ∈ (LocalDrain.aggregate_gauge key now t).entries) :
    e ∈ t.entries ∨ e.1 = SKey.row key (now - 60)
      ∨ e.1 = SKey.row key (now - 3600) := by
  unfold LocalDrain.aggregate_gauge at he
  dsimp only at he
  split at he <;>
    repeat'
      first
        | (split at he)
        | (simp only [STree.mem_insertKV', STree.mem_removeRange] at he
           tauto)

theorem mem_aggregate_count_sub (key : String) (now : ℤ) (t : STree)
    (e : SKey × Val)
    (he : e ∈ (LocalDrain.aggregate_count key now t).entries) :
    e ∈ t.entries ∨ e.1 = SKey.row key (now - 60)
      ∨ e.1 = SKey.row key (now - 3600) := by
  unfold LocalDrain.aggregate_count at he
  dsimp only at he
  split at he <;>
    repeat'
      first
        | (split at he)
        | (simp only [STree.mem_insertKV', STree.mem_removeRange] at he
           tauto)

/-- No data row of prefix `pre` older than `cut` is present. -/
def noOldRows (pre : String) (cut : ℤ) (t : STree) : Prop :=
  ∀ (ts : ℤ) (v : Val), (SKey.row pre ts, v) ∈ t.entries → cut ≤ ts

theorem noOldRows_aggregate_gauge (key : String) (now : ℤ) (t : STree)
    (hm : minuteOf now = 0) :
    noOldRows key (now - 86400) (LocalDrain.aggregate_gauge key now t) := by
  intro ts v hmem
  unfold LocalDrain.aggregate_gauge at hmem
  dsimp only at hmem
  rw [if_pos hm] at hmem
  rw [STree.mem_removeRange] at hmem
  have := hmem.2
  simp only [rowBeforeCut, decide_eq_false_iff_not] at this
  by_contra hlt
  exact this ⟨by trivial, by omega⟩

theorem noOldRows_aggregate_count (key : String) (now : ℤ) (t : STree)
    (hm : minuteOf now = 0) :
    noOldRows key (now - 86400) (LocalDrain.aggregate_count key now t) := by
  intro ts v hmem
  unfold LocalDrain.aggregate_count at hmem
  dsimp only at hmem
  rw [if_pos hm] at hmem
  rw [STree.mem_removeRange] at hmem
  have := hmem.2
  simp only [rowBeforeCut, decide_eq_false_iff_not] at this
  by_contra hlt
  exact this ⟨by trivial, by omega⟩

/-- `clearStep` never touches the tree the processed entry's namespace does
not select. -/
theorem clearStep_tree_other (now : ℤ) (d : LocalDrain)
    (entry : String × MetricMeta × MetricKind) (b : Bool)
    (hb : b ≠ decide (entry.2.1 = MetricMeta.ClusterBackend)) :
    (LocalDrain.clearStep now d entry).tree b = d.tree b := by
  unfold LocalDrain.clearStep
  dsimp only
  split
  case _ k hgt =>
    split
    · rw [tree_withMetrics, LocalDrain.tree_setTree_other _ _ _ _ hb]
      split <;>
        first
          | rw [LocalDrain.tree_setTree_other _ _ _ _ hb]
          | rfl
    · split <;>
        first
          | rw [LocalDrain.tree_setTree_other _ _ _ _ hb]
          | rfl
  case _ =>
    split <;>
      first
        | rw [LocalDrain.tree_setTree_other _ _ _ _ hb]
        | rfl

/-- Any key in a tree after `clearStep` was already there, or is one of the
two aggregation reinsertion keys of the processed prefix. -/
theorem mem_clearStep_tree (now : ℤ) (d : LocalDrain)
    (entry : String × MetricMeta × MetricKind) (b : Bool) (e : SKey × Val)
    (he : e ∈ ((LocalDrain.clearStep now d entry).tree b).entries) :
    e ∈ (d.tree b).entries ∨ e.1 = SKey.row entry.1 (now - 60)
      ∨ e.1 = SKey.row entry.1 (now - 3600) := by
  by_cases hb : b = decide (entry.2.1 = MetricMeta.ClusterBackend)
  case neg =>
    rw [clearStep_tree_other now d entry b hb] at he
    exact Or.inl he
  case pos =>
    subst hb
    unfold LocalDrain.clearStep at he
    dsimp only at he
    split at he
    case _ k hgt =>
      split at he
      · -- eviction: removeK on d1's tree
        rw [tree_withMetrics, LocalDrain.tree_setTree_same] at he
        rw [STree.mem_removeK] at he
        have he' := he.1
        -- he' is membership in d1's selected tree
        revert he'
        split <;> intro he' <;>
          first
            | (rw [LocalDrain.tree_setTree_same] at he'
               first
                 | exact mem_aggregate_gauge_sub _ _ _ _ he'
                 | exact mem_aggregate_count_sub _ _ _ _ he')
            | exact Or.inl he'
      · -- no eviction
        revert he
        split <;> intro he <;>
          first
            | (rw [LocalDrain.tree_setTree_same] at he
               first
                 | exact mem_aggregate_gauge_sub _ _ _ _ he
                 | exact mem_aggregate_count_sub _ _ _ _ he)
            | exact Or.inl he
    case _ hgt =>
      revert he
      split <;> intro he <;>
        first
          | (rw [LocalDrain.tree_setTree_same] at he
             first
               | exact mem_aggregate_gauge_sub _ _ _ _ he
               | exact mem_aggregate_count_sub _ _ _ _ he)
          | exact Or.inl he

theorem noOldRows_clearStep_self (now : ℤ) (d : LocalDrain)
    (entry : String × MetricMeta × MetricKind) (hm : minuteOf now = 0)
    (hkind : entry.2.2 ≠ MetricKind.Time) :
    noOldRows entry.1 (now - 86400)
      ((LocalDrain.clearStep now d entry).tree
        (decide (entry.2.1 = MetricMeta.ClusterBackend))) := by
  obtain ⟨key, meta, kind⟩ := entry
  intro ts v hmem
  unfold LocalDrain.clearStep at hmem
  dsimp only at hmem
  cases kind with
  | Time => exact absurd rfl hkind
  | Gauge =>
    split at hmem
    case _ k hgt =>
      split at hmem
      · rw [tree_withMetrics, LocalDrain.tree_setTree_same] at hmem
        rw [STree.mem_removeK] at hmem
        have h1 := hmem.1
        rw [LocalDrain.tree_setTree_same] at h1
        exact noOldRows_aggregate_gauge key now _ hm ts v h1
      · rw [LocalDrain.tree_setTree_same] at hmem
        exact noOldRows_aggregate_gauge key now _ hm ts v hmem
    case _ =>
      rw [LocalDrain.tree_setTree_same] at hmem
      exact noOldRows_aggregate_gauge key now _ hm ts v hmem
  | Count =>
    split at hmem
    case _ k hgt =>
      split at hmem
      · rw [tree_withMetrics, LocalDrain.tree_setTree_same] at hmem
        rw [STree.mem_removeK] at hmem
        have h1 := hmem.1
        rw [LocalDrain.tree_setTree_same] at h1
        exact noOldRows_aggregate_count key now _ hm ts v h1
      · rw [LocalDrain.tree_setTree_same] at hmem
        exact noOldRows_aggregate_count key now _ hm ts v hmem
    case _ =>
      rw [LocalDrain.tree_setTree_same] at hmem
      exact noOldRows_aggregate_count key now _ hm ts v hmem

theorem noOldRows_clearStep_pres (now : ℤ) (d : LocalDrain)
    (entry : String × MetricMeta × MetricKind) (p : String) (cut : ℤ)
    (b : Bool) (hcut : cut ≤ now - 3600)
    (hno : noOldRows p cut (d.tree b)) :
    noOldRows p cut ((LocalDrain.clearStep now d entry).tree b) := by
  intro ts v hmem
  rcases mem_clearStep_tree now d entry b _ hmem with h | h | h
  · exact hno ts v h
  · injection h with h1 h2
    omega
  · injection h with h1 h2
    omega

theorem noOldRows_foldl_pres (now : ℤ)
    (L : List (String × MetricMeta × MetricKind)) (p : String) (cut : ℤ)
    (b : Bool) (hcut : cut ≤ now - 3600) :
    ∀ d0 : LocalDrain, noOldRows p cut (d0.tree b) →
      noOldRows p cut ((L.foldl (LocalDrain.clearStep now) d0).tree b) := by
  induction L with
  | nil => intro d0 h; exact h
  | cons g gs ih =>
    intro d0 h
    rw [List.foldl_cons]
    exact ih _ (noOldRows_clearStep_pres now d0 g p cut b hcut h)

theorem noOldRows_foldl_clearStep (now : ℤ) (hm : minuteOf now = 0) :
    ∀ (L : List (String × MetricMeta × MetricKind)) (d0 : LocalDrain)
      (e : String × MetricMeta × MetricKind), e ∈ L →
      e.2.2 ≠ MetricKind.Time →
      noOldRows e.1 (now - 86400)
        ((L.foldl (LocalDrain.clearStep now) d0).tree
          (decide (e.2.1 = MetricMeta.ClusterBackend))) := by
  intro L
  induction L with
  | nil =>
    intro d0 e he
    cases he
  | cons f fs ih =>
    intro d0 e he hkind
    rw [List.foldl_cons]
    rcases List.mem_cons.mp he with rfl | he'
    · exact noOldRows_foldl_pres now fs e.1 (now - 86400)
        (decide (e.2.1 = MetricMeta.ClusterBackend)) (by omega) _
        (noOldRows_clearStep_self now d0 e hm hkind)
    · exact ih (LocalDrain.clearStep now d0 f) e he' hkind

/-- C1 amended: after `clear(now)` at a minute boundary with
`minute == 0`, for every prefix registered with kind Gauge or Count, no
row with timestamp strictly less than `now - 86400` remains in the
matching namespace (Time-kind prefixes are exempt — `clear`'s
`MetricKind::Time` arm is empty, as the counterexample shows). -/
theorem claim_C1_retention_gauge_count (d : LocalDrain) (now : ℤ)
    (hm : minuteOf now = 0) (e : String × MetricMeta × MetricKind)
    (he : e ∈ d.metrics) (hkind : e.2.2 ≠ MetricKind.Time) :
    noOldRows e.1 (now - 86400)
      ((LocalDrain.clear now d).tree
        (decide (e.2.1 = MetricMeta.ClusterBackend))) :=
  noOldRows_foldl_clearStep now hm d.metrics d e he hkind

/-- Witness for C1 amended, at the gauge drain of the C9 witness. -/
theorem claim_C1_witness :
    noOldRows "g\tA" (3600 - 86400)
      ((LocalDrain.clear 3600 exC9drain).tree
        (decide ((MetricMeta.Cluster, MetricKind.Gauge).1
          = MetricMeta.ClusterBackend))) :=
  claim_C1_retention_gauge_count exC9drain 3600 (by decide)
    ("g\tA", MetricMeta.Cluster, MetricKind.Gauge) (by decide) (by decide)

/-! ## Request-key injectivity for the query engine -/

/-- A producer-supplied name or id: no tab byte (the key grammar's field
separator). -/
def noTabStr (s : String) : Prop := '\t' ∉ s.data

instance (s : String) : Decidable (noTabStr s) := by
  unfold noTabStr; infer_instance

theorem tab_split_inj (a : List Char) : ∀ (a' b b' : List Char),
    '\t' ∉ a → '\t' ∉ a' → a ++ '\t' :: b = a' ++ '\t' :: b' →
    a = a' ∧ b = b' := by
  induction a with
  | nil =>
    intro a' b b' _ ha' h
    cases a' with
    | nil => simpa using h
    | cons x xs =>
      simp only [List.nil_append, List.cons_append, List.cons.injEq] at h
      exact absurd (h.1 ▸ List.mem_cons_self _ _) ha'
  | cons x xs ih =>
    intro a' b b' ha ha' h
    cases a' with
    | nil =>
      simp only [List.cons_append, List.nil_append, List.cons.injEq] at h
      exact absurd (h.1 ▸ List.mem_cons_self _ _) ha
    | cons y ys =>
      simp only [List.cons_append, List.cons.injEq] at h
      obtain ⟨rfl, h2⟩ := h
      have hxs : '\t' ∉ xs := fun hm => ha (List.mem_cons_of_mem _ hm)
      have hys : '\t' ∉ ys := fun hm => ha' (List.mem_cons_of_mem _ hm)
      obtain ⟨h3, h4⟩ := ih ys b b' hxs hys h2
      exact ⟨by rw [h3], h4⟩

theorem ckey_inj (m c m' c' : String) (hm : noTabStr m) (hc : noTabStr c)
    (hm' : noTabStr m') (hc' : noTabStr c')
    (h : m ++ "\t" ++ c = m' ++ "\t" ++ c') : m = m' ∧ c = c' := by
  have hd := congrArg String.data h
  simp only [String.data_append] at hd
  have hd' : m.data ++ '\t' :: c.data = m'.data ++ '\t' :: c'.data := by
    simpa using hd
  obtain ⟨h1, h2⟩ := tab_split_inj m.data m'.data c.data c'.data hm hm' hd'
  constructor
  · cases m; cases m'; exact congrArg String.mk h1
  · cases c; cases c'; exact congrArg String.mk h2

theorem bkey_inj (m c b m' c' b' : String) (hm : noTabStr m)
    (hc : noTabStr c) (hm' : noTabStr m') (hc' : noTabStr c')
    (h : m ++ "\t" ++ c ++ "\t" ++ b = m' ++ "\t" ++ c' ++ "\t" ++ b') :
    m = m' ∧ c = c' ∧ b = b' := by
  have hd := congrArg String.data h
  simp only [String.data_append] at hd
  have hd' : m.data ++ '\t' :: (c.data ++ '\t' :: b.data)
      = m'.data ++ '\t' :: (c'.data ++ '\t' :: b'.data) := by
    simpa using hd
  obtain ⟨h1, h2⟩ := tab_split_inj m.data m'.data _ _ hm hm' hd'
  obtain ⟨h3, h4⟩ := tab_split_inj c.data c'.data _ _ hc hc' h2
  refine ⟨?_, ?_, ?_⟩
  · cases m; cases m'; exact congrArg String.mk h1
  · cases c; cases c'; exact congrArg String.mk h3
  · cases b; cases b'; exact congrArg String.mk h4

/-- Read one slot of the nested cluster answer map. -/
def lookup2 (a : AMap) (c k : String) : Option FilteredData :=
  (lookupL a c).bind (fun sub => lookupL sub k)

/-- Read one slot of the nested backend answer map. -/
def lookup3 (a : BMap) (c b k : String) : Option FilteredData :=
  (lookupL a c).bind (fun sub =>
    (lookupL sub b).bind (fun sub2 => lookupL sub2 k))

theorem lookupL_nil {α : Type} (k : String) :
    lookupL ([] : List (String × α)) k = none := rfl

theorem lookup2_insert2_same (a : AMap) (c k : String) (v : FilteredData) :
    lookup2 (insert2 a c k v) c k = some v := by
  unfold insert2 lookup2
  cases h : lookupL a c with
  | some sub => simp [lookupL_insertL_self]
  | none => simp [lookupL_insertL_self]

theorem lookup2_insert2_ne (a : AMap) (c k : String) (v : FilteredData)
    (c' k' : String) (h : c' ≠ c ∨ k' ≠ k) :
    lookup2 (insert2 a c k v) c' k' = lookup2 a c' k' := by
  unfold insert2 lookup2
  by_cases hc : c' = c
  · subst hc
    have hk : k' ≠ k := h.resolve_left (fun hh => hh rfl)
    cases hsub : lookupL a c' with
    | some sub =>
      simp [lookupL_insertL_self, hsub, lookupL_insertL_ne _ _ _ _ hk]
    | none =>
      simp [lookupL_insertL_self, hsub, lookupL_insertL_ne _ _ _ _ hk,
        lookupL_nil]
  · cases hsub : lookupL a c <;>
      simp [lookupL_insertL_ne _ _ _ _ hc]

/-- The loop body of `query_cluster` for one `(metric, cluster)` pair. -/
def stepC (d : LocalDrain) (a : AMap) (p : String × String) : AMap :=
  match d.pairAnswerC p.1 p.2 with
  | some v => insert2 a p.2 (p.1 ++ "\t" ++ p.2) v
  | none => a

theorem query_cluster_eq_fold (d : LocalDrain) (ms cs : List String) :
    d.query_cluster ms cs = Except.ok (QueryAnswerMetrics.Cluster
      ((pairsOf ms cs).foldl (stepC d) (seedA cs))) := rfl

theorem stepC_slot_other (d : LocalDrain) (a : AMap) (p : String × String)
    (m c : String) (hne : p ≠ (m, c)) (hm : noTabStr m) (hc : noTabStr c)
    (hpm : noTabStr p.1) (hpc : noTabStr p.2) :
    lookup2 (stepC d a p) c (m ++ "\t" ++ c)
      = lookup2 a c (m ++ "\t" ++ c) := by
  unfold stepC
  cases hpa : d.pairAnswerC p.1 p.2 with
  | none => rfl
  | some v =>
    apply lookup2_insert2_ne
    by_cases hcc : c = p.2
    · right
      intro hkey
      obtain ⟨h1, h2⟩ := ckey_inj _ _ _ _ hm hc hpm hpc hkey
      apply hne
      cases p
      simp_all
    · left; exact hcc

theorem stepC_slot_self (d : LocalDrain) (a : AMap) (m c : String) :
    lookup2 (stepC d a (m, c)) c (m ++ "\t" ++ c)
      = match d.pairAnswerC m c with
        | some v => some v
        | none => lookup2 a c (m ++ "\t" ++ c) := by
  unfold stepC
  cases hpa : d.pairAnswerC m c with
  | none => rfl
  | some v => exact lookup2_insert2_same _ _ _ _

theorem foldC_keeps (d : LocalDrain) (m c : String) (hm : noTabStr m)
    (hc : noTabStr c) :
    ∀ (P : List (String × String)) (a : AMap),
      (∀ p ∈ P, noTabStr p.1 ∧ noTabStr p.2) →
      lookup2 a c (m ++ "\t" ++ c) = d.pairAnswerC m c →
      lookup2 (P.foldl (stepC d) a) c (m ++ "\t" ++ c)
        = d.pairAnswerC m c := by
  intro P
  induction P with
  | nil => intro a _ h; exact h
  | cons p ps ih =>
    intro a hnt h
    rw [List.foldl_cons]
    refine ih _ (fun q hq => hnt q (List.mem_cons_of_mem _ hq)) ?_
    by_cases hp : p = (m, c)
    · subst hp
      rw [stepC_slot_self]
      rw [h]
      cases d.pairAnswerC m c <;> rfl
    · rw [stepC_slot_other d a p m c hp hm hc (hnt p (List.mem_cons_self _ _)).1
        (hnt p (List.mem_cons_self _ _)).2]
      exact h

theorem foldC_slot (d : LocalDrain) (m c : String) (hm : noTabStr m)
    (hc : noTabStr c) :
    ∀ (P : List (String × String)) (a : AMap),
      (∀ p ∈ P, noTabStr p.1 ∧ noTabStr p.2) → (m, c) ∈ P →
      lookup2 a c (m ++ "\t" ++ c) = none →
      lookup2 (P.foldl (stepC d) a) c (m ++ "\t" ++ c)
        = d.pairAnswerC m c := by
  intro P
  induction P with
  | nil => intro a _ hmem; cases hmem
  | cons p ps ih =>
    intro a hnt hmem h0
    rw [List.foldl_cons]
    by_cases hp : p = (m, c)
    · subst hp
      refine foldC_keeps d m c hm hc ps _
        (fun q hq => hnt q (List.mem_cons_of_mem _ hq)) ?_
      rw [stepC_slot_self, h0]
      cases d.pairAnswerC m c <;> rfl
    · have hmem' : (m, c) ∈ ps := by
        rcases List.mem_cons.mp hmem with hh | hh
        · exact absurd hh.symm hp
        · exact hh
      refine ih _ (fun q hq => hnt q (List.mem_cons_of_mem _ hq)) hmem' ?_
      rw [stepC_slot_other d a p m c hp hm hc (hnt p (List.mem_cons_self _ _)).1
        (hnt p (List.mem_cons_self _ _)).2]
      exact h0

theorem lookup2_seedA (cs : List String) (c k : String) :
    lookup2 (seedA cs) c k = none := by
  unfold seedA
  suffices H : ∀ (L : List String) (a : AMap),
      lookup2 a c k = none → lookup2 (L.foldl (fun a c => insertL a c []) a) c k = none by
    exact H cs [] rfl
  intro L
  induction L with
  | nil => intro a h; exact h
  | cons c0 cs0 ih =>
    intro a h
    rw [List.foldl_cons]
    refine ih _ ?_
    unfold lookup2 at h ⊢
    by_cases hc : c = c0
    · subst hc
      simp [lookupL_insertL_self, lookupL_nil]
    · rw [lookupL_insertL_ne _ _ _ _ hc]
      exact h

theorem mem_pairsOf {α : Type} (ms : List String) (cs : List α)
    (m : String) (c : α) :
    (m, c) ∈ pairsOf ms cs ↔ m ∈ ms ∧ c ∈ cs := by
  simp [pairsOf, List.mem_flatMap]

theorem lookup3_insert3_same (a : BMap) (c b k : String) (v : FilteredData) :
    lookup3 (insert3 a c b k v) c b k = some v := by
  unfold insert3 lookup3
  cases h1 : lookupL a c with
  | some sub =>
    cases h2 : lookupL sub b with
    | some sub2 => simp [h1, h2, lookupL_insertL_self]
    | none => simp [h1, h2, lookupL_insertL_self]
  | none => simp [h1, lookupL_insertL_self]

theorem lookup3_insert3_ne (a : BMap) (c b k : String) (v : FilteredData)
    (c' b' k' : String) (h : c' ≠ c ∨ b' ≠ b ∨ k' ≠ k) :
    lookup3 (insert3 a c b k v) c' b' k' = lookup3 a c' b' k' := by
  unfold insert3 lookup3
  by_cases hc : c' = c
  · subst hc
    rcases h.resolve_left (fun hh => hh rfl) with hb | hk
    · -- different backend slot
      cases h1 : lookupL a c' with
      | some sub =>
        cases h2 : lookupL sub b with
        | some sub2 =>
          simp [h1, h2, lookupL_insertL_self, lookupL_insertL_ne _ _ _ _ hb]
        | none =>
          simp [h1, h2, lookupL_insertL_self, lookupL_insertL_ne _ _ _ _ hb,
            lookupL_nil]
      | none =>
        simp [h1, lookupL_insertL_self, lookupL_insertL_ne _ _ _ _ hb,
          lookupL_nil]
    · -- same backend, different key
      by_cases hb : b' = b
      · subst hb
        cases h1 : lookupL a c' with
        | some sub =>
          cases h2 : lookupL sub b' with
          | some sub2 =>
            simp [h1, h2, lookupL_insertL_self,
              lookupL_insertL_ne _ _ _ _ hk]
          | none =>
            simp [h1, h2, lookupL_insertL_self,
              lookupL_insertL_ne _ _ _ _ hk, lookupL_nil]
        | none =>
          simp [h1, lookupL_insertL_self,
            lookupL_insertL_ne _ _ _ _ hk, lookupL_nil]
      · cases h1 : lookupL a c' with
        | some sub =>
          cases h2 : lookupL sub b with
          | some sub2 =>
            simp [h1, h2, lookupL_insertL_self,
              lookupL_insertL_ne _ _ _ _ hb]
          | none =>
            simp [h1, h2, lookupL_insertL_self,
              lookupL_insertL_ne _ _ _ _ hb, lookupL_nil]
        | none =>
          simp [h1, lookupL_insertL_self, lookupL_insertL_ne _ _ _ _ hb,
            lookupL_nil]
  · cases h1 : lookupL a c with
    | some sub =>
      cases h2 : lookupL sub b <;>
        simp [h1, h2, lookupL_insertL_ne _ _ _ _ hc]
    | none => simp [h1, lookupL_insertL_ne _ _ _ _ hc]

/-- The loop body of `query_backend` for one
`(metric, (cluster, backend))` pair. -/
def stepB (d : LocalDrain) (a : BMap) (p : String × String × String) :
    BMap :=
  match d.pairAnswerB p.1 p.2.1 p.2.2 with
  | some v => insert3 a p.2.1 p.2.2 (p.1 ++ "\t" ++ p.2.1 ++ "\t" ++ p.2.2) v
  | none => a

theorem query_backend_eq_fold (d : LocalDrain) (ms : List String)
    (bs : List (String × String)) :
    d.query_backend ms bs = Except.ok (QueryAnswerMetrics.Backend
      ((pairsOf ms bs).foldl (stepB d) (seedB bs))) := rfl

theorem stepB_slot_other (d : LocalDrain) (a : BMap)
    (p : String × String × String) (m c b : String)
    (hne : p ≠ (m, (c, b))) (hm : noTabStr m) (hc : noTabStr c)
    (hpm : noTabStr p.1) (hpc : noTabStr p.2.1) :
    lookup3 (stepB d a p) c b (m ++ "\t" ++ c ++ "\t" ++ b)
      = lookup3 a c b (m ++ "\t" ++ c ++ "\t" ++ b) := by
  unfold stepB
  cases hpa : d.pairAnswerB p.1 p.2.1 p.2.2 with
  | none => rfl
  | some v =>
    apply lookup3_insert3_ne
    by_cases hkey : (m ++ "\t" ++ c ++ "\t" ++ b)
        = (p.1 ++ "\t" ++ p.2.1 ++ "\t" ++ p.2.2)
    · exfalso
      obtain ⟨h1, h2, h3⟩ := bkey_inj _ _ _ _ _ _ hm hc hpm hpc hkey
      apply hne
      obtain ⟨pm, pc, pb⟩ := p
      simp_all
    · right; right; exact hkey

theorem stepB_slot_self (d : LocalDrain) (a : BMap) (m c b : String) :
    lookup3 (stepB d a (m, (c, b))) c b (m ++ "\t" ++ c ++ "\t" ++ b)
      = match d.pairAnswerB m c b with
        | some v => some v
        | none => lookup3 a c b (m ++ "\t" ++ c ++ "\t" ++ b) := by
  unfold stepB
  cases hpa : d.pairAnswerB m c b with
  | none => rfl
  | some v => exact lookup3_insert3_same _ _ _ _ _

theorem foldB_keeps (d : LocalDrain) (m c b : String) (hm : noTabStr m)
    (hc : noTabStr c) :
    ∀ (P : List (String × String × String)) (a : BMap),
      (∀ p ∈ P, noTabStr p.1 ∧ noTabStr p.2.1) →
      lookup3 a c b (m ++ "\t" ++ c ++ "\t" ++ b) = d.pairAnswerB m c b →
      lookup3 (P.foldl (stepB d) a) c b (m ++ "\t" ++ c ++ "\t" ++ b)
        = d.pairAnswerB m c b := by
  intro P
  induction P with
  | nil => intro a _ h; exact h
  | cons p ps ih =>
    intro a hnt h
    rw [List.foldl_cons]
    refine ih _ (fun q hq => hnt q (List.mem_cons_of_mem _ hq)) ?_
    by_cases hp : p = (m, (c, b))
    · subst hp
      rw [stepB_slot_self]
      rw [h]
      cases d.pairAnswerB m c b <;> rfl
    · rw [stepB_slot_other d a p m c b hp hm hc
        (hnt p (List.mem_cons_self _ _)).1 (hnt p (List.mem_cons_self _ _)).2]
      exact h

theorem foldB_slot (d : LocalDrain) (m c b : String) (hm : noTabStr m)
    (hc : noTabStr c) :
    ∀ (P : List (String × String × String)) (a : BMap),
      (∀ p ∈ P, noTabStr p.1 ∧ noTabStr p.2.1) → (m, (c, b)) ∈ P →
      lookup3 a c b (m ++ "\t" ++ c ++ "\t" ++ b) = none →
      lookup3 (P.foldl (stepB d) a) c b (m ++ "\t" ++ c ++ "\t" ++ b)
        = d.pairAnswerB m c b := by
  intro P
  induction P with
  | nil => intro a _ hmem; cases hmem
  | cons p ps ih =>
    intro a hnt hmem h0
    rw [List.foldl_cons]
    by_cases hp : p = (m, (c, b))
    · subst hp
      refine foldB_keeps d m c b hm hc ps _
        (fun q hq => hnt q (List.mem_cons_of_mem _ hq)) ?_
      rw [stepB_slot_self, h0]
      cases d.pairAnswerB m c b <;> rfl
    · have hmem' : (m, (c, b)) ∈ ps := by
        rcases List.mem_cons.mp hmem with hh | hh
        · exact absurd hh.symm hp
        · exact hh
      refine ih _ (fun q hq => hnt q (List.mem_cons_of_mem _ hq)) hmem' ?_
      rw [stepB_slot_other d a p m c b hp hm hc
        (hnt p (List.mem_cons_self _ _)).1 (hnt p (List.mem_cons_self _ _)).2]
      exact h0

theorem lookup3_seedB (bs : List (String × String)) (c b k : String) :
    lookup3 (seedB bs) c b k = none := by
  unfold seedB
  suffices H : ∀ (L : List (String × String)) (a : BMap),
      (∀ c' b' k', lookup3 a c' b' k' = none) →
      lookup3 (L.foldl (fun a p =>
        match lookupL a p.1 with
        | some sub => insertL a p.1 (insertL sub p.2 [])
        | none => insertL a p.1 (insertL [] p.2 [])) a) c b k = none by
    exact H bs [] (fun _ _ _ => rfl)
  intro L
  induction L with
  | nil => intro a h; exact h c b k
  | cons p ps ih =>
    intro a h
    rw [List.foldl_cons]
    refine ih _ ?_
    intro c' b' k'
    have hk := h c' b' k'
    unfold lookup3 at hk ⊢
    cases hpa : lookupL a p.1 with
    | some sub =>
      by_cases hc : c' = p.1
      · subst hc
        rw [lookupL_insertL_self]
        by_cases hb : b' = p.2
        · subst hb
          simp [lookupL_insertL_self, lookupL_nil]
        · rw [hpa] at hk
          simp only [Option.some_bind] at hk ⊢
          rw [lookupL_insertL_ne _ _ _ _ hb]
          exact hk
      · rw [lookupL_insertL_ne _ _ _ _ hc]
        exact hk
    | none =>
      by_cases hc : c' = p.1
      · subst hc
        rw [lookupL_insertL_self]
        by_cases hb : b' = p.2
        · subst hb
          simp [lookupL_insertL_self, lookupL_nil]
        · simp [lookupL_insertL_ne _ _ _ _ hb, lookupL_nil]
      · rw [lookupL_insertL_ne _ _ _ _ hc]
        exact hk

theorem pairAnswerC_none (d : LocalDrain) (m c : String)
    (h : lookupL d.metrics (m ++ "\t" ++ c) = none) :
    d.pairAnswerC m c = none := by
  unfold LocalDrain.pairAnswerC
  dsimp only
  rw [h]

theorem pairAnswerB_none (d : LocalDrain) (m c b : String)
    (h : lookupL d.metrics (m ++ "\t" ++ c ++ "\t" ++ b) = none) :
    d.pairAnswerB m c b = none := by
  unfold LocalDrain.pairAnswerB
  dsimp only
  rw [h]

/-- C8: for every Cluster or Backend query (with producer-grammar request
strings, i.e. no tab bytes), the result is `Ok`; every requested pair whose
prefix is not in the registry is skipped (its slot in the answer map stays
empty), and every other requested pair's slot holds exactly the per-pair
answer the loop body computes — an unknown prefix never turns the overall
result into `Err`. -/
theorem claim_C8_unknown_skipped (d : LocalDrain) (ms cs : List String)
    (bs : List (String × String)) (hms : ∀ s ∈ ms, noTabStr s)
    (hcs : ∀ s ∈ cs, noTabStr s) (hbs : ∀ p ∈ bs, noTabStr p.1) :
    (∃ apps, d.query_cluster ms cs
        = Except.ok (QueryAnswerMetrics.Cluster apps) ∧
      ∀ m ∈ ms, ∀ c ∈ cs,
        lookup2 apps c (m ++ "\t" ++ c) = d.pairAnswerC m c ∧
        (lookupL d.metrics (m ++ "\t" ++ c) = none →
          lookup2 apps c (m ++ "\t" ++ c) = none)) ∧
    (∃ apps, d.query_backend ms bs
        = Except.ok (QueryAnswerMetrics.Backend apps) ∧
      ∀ m ∈ ms, ∀ p ∈ bs,
        lookup3 apps p.1 p.2 (m ++ "\t" ++ p.1 ++ "\t" ++ p.2)
          = d.pairAnswerB m p.1 p.2 ∧
        (lookupL d.metrics (m ++ "\t" ++ p.1 ++ "\t" ++ p.2) = none →
          lookup3 apps p.1 p.2 (m ++ "\t" ++ p.1 ++ "\t" ++ p.2)
            = none)) := by
  constructor
  · refine ⟨(pairsOf ms cs).foldl (stepC d) (seedA cs),
      query_cluster_eq_fold d ms cs, ?_⟩
    intro m hm c hc
    have hslot : lookup2 ((pairsOf ms cs).foldl (stepC d) (seedA cs)) c
        (m ++ "\t" ++ c) = d.pairAnswerC m c := by
      refine foldC_slot d m c (hms m hm) (hcs c hc) _ _ ?_ ?_ ?_
      · intro p hp
        rw [← Prod.mk.eta (p := p)] at hp
        rw [mem_pairsOf] at hp
        exact ⟨hms _ hp.1, hcs _ hp.2⟩
      · exact (mem_pairsOf ms cs m c).mpr ⟨hm, hc⟩
      · exact lookup2_seedA cs c _
    refine ⟨hslot, fun hunk => ?_⟩
    rw [hslot, pairAnswerC_none d m c hunk]
  · refine ⟨(pairsOf ms bs).foldl (stepB d) (seedB bs),
      query_backend_eq_fold d ms bs, ?_⟩
    intro m hm p hp
    have hslot : lookup3 ((pairsOf ms bs).foldl (stepB d) (seedB bs)) p.1 p.2
        (m ++ "\t" ++ p.1 ++ "\t" ++ p.2) = d.pairAnswerB m p.1 p.2 := by
      refine foldB_slot d m p.1 p.2 (hms m hm) (hbs p hp) _ _ ?_ ?_ ?_
      · intro q hq
        rw [← Prod.mk.eta (p := q)] at hq
        rw [mem_pairsOf] at hq
        exact ⟨hms _ hq.1, hbs _ hq.2⟩
      · have : (m, p) ∈ pairsOf ms bs := (mem_pairsOf ms bs m p).mpr ⟨hm, hp⟩
        simpa using this
      · exact lookup3_seedB bs p.1 p.2 _
    refine ⟨hslot, fun hunk => ?_⟩
    rw [hslot, pairAnswerB_none d m p.1 p.2 hunk]

/-- Witness for C8 at a concrete drain and request containing the unknown
metric name `"nope"`. -/
theorem claim_C8_witness :
    (∃ apps, exC9drain.query_cluster ["g", "nope"] ["A"]
        = Except.ok (QueryAnswerMetrics.Cluster apps) ∧
      ∀ m ∈ ["g", "nope"], ∀ c ∈ ["A"],
        lookup2 apps c (m ++ "\t" ++ c) = exC9drain.pairAnswerC m c ∧
        (lookupL exC9drain.metrics (m ++ "\t" ++ c) = none →
          lookup2 apps c (m ++ "\t" ++ c) = none)) ∧
    (∃ apps, exC9drain.query_backend ["g", "nope"] [("A", "b1")]
        = Except.ok (QueryAnswerMetrics.Backend apps) ∧
      ∀ m ∈ ["g", "nope"], ∀ p ∈ [("A", "b1")],
        lookup3 apps p.1 p.2 (m ++ "\t" ++ p.1 ++ "\t" ++ p.2)
          = exC9drain.pairAnswerB m p.1 p.2 ∧
        (lookupL exC9drain.metrics (m ++ "\t" ++ p.1 ++ "\t" ++ p.2) = none →
          lookup3 apps p.1 p.2 (m ++ "\t" ++ p.1 ++ "\t" ++ p.2)
            = none)) :=
  claim_C8_unknown_skipped exC9drain ["g", "nope"] ["A"] [("A", "b1")]
    (by decide) (by decide) (by decide)

/-! ## The sentinel invariant -/

/-- Registry keys contain no space byte (Time sub-field prefixes always do,
which keeps the two key families apart). -/
def noSpaceStr (s : String) : Prop := ' ' ∉ s.data

instance (s : String) : Decidable (noSpaceStr s) := by
  unfold noSpaceStr; infer_instance

/-- Why a sentinel key may sit in the namespace selected by `meta`: it is
the bare sentinel of a registered non-Time prefix, or a sub-field sentinel
of a registered Time prefix. -/
def SentWitness (d : LocalDrain) (meta : MetricMeta) (q : String) : Prop :=
  (∃ k, k ≠ MetricKind.Time ∧ lookupL d.metrics q = some (meta, k)) ∨
  (∃ base f, f ∈ subFields ∧ q = timeSub base f ∧
    lookupL d.metrics base = some (meta, MetricKind.Time))

/-- The C3 invariant (amended).  (A) every registered non-Time prefix has
its bare sentinel, and every registered Time prefix its ten sub-field
sentinels, in the matching namespace; (B)/(C) conversely every sentinel
present in a namespace is accounted for by a registry entry; (D) registry
keys are space-free; (E) Time prefixes have no bare sentinel;
(F) the registry list is consistent with its lookup function. -/
def SentInv (d : LocalDrain) : Prop :=
  (∀ p meta kind, lookupL d.metrics p = some (meta, kind) →
    (kind ≠ MetricKind.Time →
      ((d.tree (decide (meta = MetricMeta.ClusterBackend))).find
        (SKey.sent p)).isSome = true) ∧
    (kind = MetricKind.Time → ∀ f ∈ subFields,
      ((d.tree (decide (meta = MetricMeta.ClusterBackend))).find
        (SKey.sent (timeSub p f))).isSome = true)) ∧
  (∀ q, ((d.clusterTree.find (SKey.sent q)).isSome = true) →
    SentWitness d MetricMeta.Cluster q) ∧
  (∀ q, ((d.backendTree.find (SKey.sent q)).isSome = true) →
    SentWitness d MetricMeta.ClusterBackend q) ∧
  (∀ e ∈ d.metrics, noSpaceStr e.1) ∧
  (∀ p meta, lookupL d.metrics p = some (meta, MetricKind.Time) →
    (d.tree (decide (meta = MetricMeta.ClusterBackend))).find
      (SKey.sent p) = none) ∧
  (∀ e ∈ d.metrics, lookupL d.metrics e.1 = some e.2)

theorem find_isSome_of_mem (t : STree) (k : SKey) (v : Val)
    (h : (k, v) ∈ t.entries) : (t.find k).isSome = true := by
  unfold STree.find
  generalize t.entries = l at h ⊢
  induction l with
  | nil => cases h
  | cons e es ih =>
    by_cases he : e.1 = k
    · rw [List.find?_cons_of_pos _ (by simp [he])]
      rfl
    · rcases List.mem_cons.mp h with rfl | h'
      · exact absurd rfl he
      · rw [List.find?_cons_of_neg _ (by simp [he])]
        exact ih h'

/-- Both trees keep every sentinel find and the registry is untouched:
the whole invariant transfers. -/
theorem SentInv_transfer (d d' : LocalDrain) (hinv : SentInv d)
    (hm : d'.metrics = d.metrics)
    (hf : ∀ (b : Bool) (q : String),
      (d'.tree b).find (SKey.sent q) = (d.tree b).find (SKey.sent q)) :
    SentInv d' := by
  obtain ⟨hA, hB, hC, hD, hE, hF⟩ := hinv
  have hfc : ∀ q, d'.clusterTree.find (SKey.sent q)
      = d.clusterTree.find (SKey.sent q) := fun q => hf false q
  have hfb : ∀ q, d'.backendTree.find (SKey.sent q)
      = d.backendTree.find (SKey.sent q) := fun q => hf true q
  refine ⟨?_, ?_, ?_, ?_, ?_, ?_⟩
  · intro p meta kind hp
    rw [hm] at hp
    refine ⟨fun hk => ?_, fun hk f hfm => ?_⟩
    · rw [hf]; exact ((hA p meta kind hp).1 hk)
    · rw [hf]; exact ((hA p meta kind hp).2 hk f hfm)
  · intro q hq
    rw [hfc] at hq
    unfold SentWitness
    rw [hm]
    exact hB q hq
  · intro q hq
    rw [hfb] at hq
    unfold SentWitness
    rw [hm]
    exact hC q hq
  · intro e he
    rw [hm] at he
    exact hD e he
  · intro p meta hp
    rw [hm] at hp
    rw [hf]
    exact hE p meta hp
  · intro e he
    rw [hm] at he
    rw [hm]
    exact hF e he

/-- The tree selected by `decide (meta = ClusterBackend)` for the meta
built from `isB`. -/
theorem decide_meta_eq (isB : Bool) :
    decide ((if isB then MetricMeta.ClusterBackend else MetricMeta.Cluster)
      = MetricMeta.ClusterBackend) = isB := by
  cases isB <;> decide

/-- `store_gauge` writes only row keys of its own prefix: any other key's
find, in either tree, and the registry, are unchanged. -/
theorem LocalDrain.store_gauge_frame (key : String) (i : ℕ) (isB : Bool)
    (now : ℤ) (d : LocalDrain) (b : Bool) (k : SKey)
    (hk : ∀ ts : ℤ, k ≠ SKey.row key ts) :
    ((LocalDrain.store_gauge key i isB now d).tree b).find k
      = (d.tree b).find k ∧
    (LocalDrain.store_gauge key i isB now d).metrics = d.metrics := by
  unfold LocalDrain.store_gauge
  refine ⟨?_, LocalDrain.metrics_setTree _ _ _⟩
  by_cases hb : b = isB
  · subst hb
    rw [LocalDrain.tree_setTree_same]
    by_cases hs : secOf now = 0 <;>
      simp only [hs, if_true, if_false]
    · rw [find_aggregate_gauge_other _ _ _ _ hk,
        STree.find_insertKV_ne _ _ _ _ (hk now)]
    · rw [STree.find_insertKV_ne _ _ _ _ (hk now)]
  · rw [LocalDrain.tree_setTree_other _ _ _ _ hb]

/-- `add_gauge` likewise. -/
theorem LocalDrain.add_gauge_frame (key : String) (i : ℤ) (isB : Bool)
    (now : ℤ) (d : LocalDrain) (b : Bool) (k : SKey)
    (hk : ∀ ts : ℤ, k ≠ SKey.row key ts) :
    ((LocalDrain.add_gauge key i isB now d).tree b).find k
      = (d.tree b).find k ∧
    (LocalDrain.add_gauge key i isB now d).metrics = d.metrics := by
  unfold LocalDrain.add_gauge
  dsimp only
  refine ⟨?_, LocalDrain.metrics_setTree _ _ _⟩
  by_cases hb : b = isB
  · subst hb
    rw [LocalDrain.tree_setTree_same]
    cases hv : (d.tree b).lastRowIn (rowInIncl key (now - 60) now) <;>
      dsimp only <;>
      by_cases hs : secOf now = 0 <;>
      simp only [hs, if_true, if_false]
    · rw [find_aggregate_gauge_other _ _ _ _ hk,
        STree.find_insertKV_ne _ _ _ _ (hk now)]
    · rw [STree.find_insertKV_ne _ _ _ _ (hk now)]
    · rw [find_aggregate_gauge_other _ _ _ _ hk,
        STree.find_insertKV_ne _ _ _ _ (hk now)]
    · rw [STree.find_insertKV_ne _ _ _ _ (hk now)]
  · rw [LocalDrain.tree_setTree_other _ _ _ _ hb]

/-- `store_count` likewise. -/
theorem LocalDrain.store_count_frame (key : String) (i : ℤ) (isB : Bool)
    (now : ℤ) (d : LocalDrain) (b : Bool) (k : SKey)
    (hk : ∀ ts : ℤ, k ≠ SKey.row key ts) :
    ((LocalDrain.store_count key i isB now d).tree b).find k
      = (d.tree b).find k ∧
    (LocalDrain.store_count key i isB now d).metrics = d.metrics := by
  unfold LocalDrain.store_count
  dsimp only
  refine ⟨?_, LocalDrain.metrics_setTree _ _ _⟩
  by_cases hb : b = isB
  · subst hb
    rw [LocalDrain.tree_setTree_same]
    cases hv : (d.tree b).find (SKey.row key now) <;>
      dsimp only <;>
      by_cases hs : secOf now = 0 <;>
      simp only [hs, if_true, if_false]
    · rw [find_aggregate_count_other _ _ _ _ hk,
        STree.find_insertKV_ne _ _ _ _ (hk now)]
    · rw [STree.find_insertKV_ne _ _ _ _ (hk now)]
    · rw [find_aggregate_count_other _ _ _ _ hk,
        STree.find_insertKV_ne _ _ _ _ (hk now)]
    · rw [STree.find_insertKV_ne _ _ _ _ (hk now)]
  · rw [LocalDrain.tree_setTree_other _ _ _ _ hb]

/-- `updPercentile` touches only its own cell key. -/
theorem find_updPercentile_other (t : STree) (k k' : SKey) (tv : ℕ)
    (sd q : PRat) (h : k' ≠ k) :
    (updPercentile t k tv sd q).find k' = t.find k' := by
  unfold updPercentile
  cases t.find k <;> dsimp only
  rw [STree.find_insertKV_ne _ _ _ _ h]

/-- `timeCellsUpdate` writes only row keys: every sentinel find is
unchanged. -/
theorem find_timeCellsUpdate_sent (kp : String) (ts : ℤ) (tv : ℕ)
    (t0 : STree) (q : String) :
    (timeCellsUpdate kp ts tv t0).find (SKey.sent q)
      = t0.find (SKey.sent q) := by
  have hrow : ∀ (p : String) (i : ℤ), SKey.sent q ≠ SKey.row p i :=
    fun p i h => SKey.noConfusion h
  unfold timeCellsUpdate
  dsimp only
  repeat' (first
    | rw [STree.find_insertKV_ne _ _ _ _ (hrow _ _)]
    | rw [find_updPercentile_other _ _ _ _ _ _ (hrow _ _)]
    | split)

/-- An insert never erases a key's presence. -/
theorem STree.isSome_find_insertKV (t : STree) (k : SKey) (v : Val)
    (k' : SKey) (h : (t.find k').isSome = true) :
    ((t.insertKV k v).find k').isSome = true := by
  by_cases he : k' = k
  · subst he; rw [STree.find_insertKV_self]; rfl
  · rw [STree.find_insertKV_ne _ _ _ _ he]; exact h

/-- The sub-sentinel registration fold never erases a key's presence. -/
theorem isSome_find_foldl_sent (l : List String) (t : STree) (base : String)
    (k : SKey) (h : (t.find k).isSome = true) :
    ((l.foldl (fun t f => t.insertKV (SKey.sent (timeSub base f))
        (Val.raw 0)) t).find k).isSome = true := by
  induction l generalizing t with
  | nil => exact h
  | cons f fs ih =>
    rw [List.foldl_cons]
    exact ih _ (STree.isSome_find_insertKV _ _ _ _ h)

/-- After the registration fold, every folded sub-field sentinel is
present. -/
theorem find_foldl_sent_self (l : List String) (t : STree) (base f : String)
    (hf : f ∈ l) :
    ((l.foldl (fun t g => t.insertKV (SKey.sent (timeSub base g))
        (Val.raw 0)) t).find (SKey.sent (timeSub base f))).isSome = true := by
  induction l generalizing t with
  | nil => cases hf
  | cons g gs ih =>
    rw [List.foldl_cons]
    rcases List.mem_cons.mp hf with rfl | hf'
    · exact isSome_find_foldl_sent gs _ base _
        (by rw [STree.find_insertKV_self]; rfl)
    · exact ih _ hf'

/-- The registration fold touches no sentinel outside its sub-field
image. -/
theorem find_foldl_sent_other (l : List String) (t : STree) (base q : String)
    (hq : ∀ f ∈ l, q ≠ timeSub base f) :
    ((l.foldl (fun t g => t.insertKV (SKey.sent (timeSub base g))
        (Val.raw 0)) t).find (SKey.sent q)) = t.find (SKey.sent q) := by
  induction l generalizing t with
  | nil => rfl
  | cons g gs ih =>
    have hne : SKey.sent q ≠ SKey.sent (timeSub base g) := by
      intro h
      exact hq g (List.mem_cons_self _ _) (SKey.sent.inj h)
    rw [List.foldl_cons, ih _ (fun f hf => hq f (List.mem_cons_of_mem _ hf)),
      STree.find_insertKV_ne _ _ _ _ hne]

/-- A sentinel present after the registration fold was folded in or was
already present. -/
theorem find_foldl_sent_inv (l : List String) (t : STree) (base q : String)
    (h : ((l.foldl (fun t g => t.insertKV (SKey.sent (timeSub base g))
        (Val.raw 0)) t).find (SKey.sent q)).isSome = true) :
    (∃ f ∈ l, q = timeSub base f) ∨ (t.find (SKey.sent q)).isSome = true := by
  induction l generalizing t with
  | nil => exact Or.inr h
  | cons g gs ih =>
    rw [List.foldl_cons] at h
    rcases ih _ h with ⟨f, hf, hqf⟩ | h'
    · exact Or.inl ⟨f, List.mem_cons_of_mem _ hf, hqf⟩
    · by_cases he : q = timeSub base g
      · exact Or.inl ⟨g, List.mem_cons_self _ _, he⟩
      · rw [STree.find_insertKV_ne _ _ _ _
          (fun hh => he (SKey.sent.inj hh))] at h'
        exact Or.inr h'

/-- Appending preserves space-freeness. -/
theorem noSpaceStr_append (a b : String) (ha : noSpaceStr a)
    (hb : noSpaceStr b) : noSpaceStr (a ++ b) := by
  intro hm
  have h : (a ++ b).data = a.data ++ b.data := rfl
  rw [h] at hm
  rcases List.mem_append.mp hm with h' | h'
  · exact ha h'
  · exact hb h'

theorem noSpaceStr_tab : noSpaceStr "\t" := by decide

/-- Grammar-conforming strings are space-free. -/
theorem noSpaceStr_of_goodStr (s : String) (h : goodStr s) : noSpaceStr s := by
  intro hm
  exact absurd (h ' ' hm).1 (by decide)

theorem space_mem_append_space (x : String) : ' ' ∈ (x ++ " ").data := by
  have h : (x ++ " ").data = x.data ++ [' '] := rfl
  rw [h]
  simp

/-- Every sub-field prefix carries a space byte. -/
theorem timeSub_not_noSpace (base f : String) : ¬ noSpaceStr (timeSub base f) :=
  fun h => h (space_mem_append_space (base ++ "." ++ f))

/-- A space-free prefix is never a sub-field prefix. -/
theorem noSpace_ne_timeSub (p base f : String) (hp : noSpaceStr p) :
    p ≠ timeSub base f :=
  fun h => timeSub_not_noSpace base f (h ▸ hp)

/-- A sentinel's justification survives any step that preserves registry
lookups. -/
theorem SentWitness_mono (d r : LocalDrain) (meta : MetricMeta) (q : String)
    (hw : SentWitness d meta q)
    (hpres : ∀ (p : String) (v : MetricMeta × MetricKind),
      lookupL d.metrics p = some v → lookupL r.metrics p = some v) :
    SentWitness r meta q := by
  rcases hw with ⟨k, hk, hl⟩ | ⟨base, f, hf, hq, hl⟩
  · exact Or.inl ⟨k, hk, hpres _ _ hl⟩
  · exact Or.inr ⟨base, f, hf, hq, hpres _ _ hl⟩

/-- Registering a fresh non-Time prefix and inserting its bare sentinel
(the first-write block of `store_metric`, local_drain.rs 511-535) preserves
the invariant. -/
theorem SentInv_after_register (d : LocalDrain) (hinv : SentInv d)
    (keyPre : String) (hp : noSpaceStr keyPre) (isB : Bool)
    (kind : MetricKind) (hk : kind ≠ MetricKind.Time)
    (hnew : lookupL d.metrics keyPre = none)
    (r : LocalDrain)
    (hrm : r.metrics = insertL d.metrics keyPre
      ((if isB then MetricMeta.ClusterBackend else MetricMeta.Cluster), kind))
    (hrt : r.tree isB = (d.tree isB).insertKV (SKey.sent keyPre) (Val.raw 0))
    (hro : ∀ b, b ≠ isB → r.tree b = d.tree b) :
    SentInv r := by
  obtain ⟨hA, hB, hC, hD, hE, hF⟩ := hinv
  have hpres : ∀ (p : String) (v : MetricMeta × MetricKind),
      lookupL d.metrics p = some v → lookupL r.metrics p = some v := by
    intro p v hv
    have hpk : p ≠ keyPre := fun h => by rw [h, hnew] at hv; cases hv
    rw [hrm, lookupL_insertL_ne _ _ _ _ hpk]; exact hv
  have hrfind : ∀ (b : Bool) (q : String), (r.tree b).find (SKey.sent q)
      = if b = isB ∧ q = keyPre then some (Val.raw 0)
        else (d.tree b).find (SKey.sent q) := by
    intro b q
    by_cases hb : b = isB
    · subst hb
      rw [hrt]
      by_cases hq : q = keyPre
      · subst hq; rw [STree.find_insertKV_self, if_pos ⟨rfl, rfl⟩]
      · rw [STree.find_insertKV_ne _ _ _ _ (fun h => hq (SKey.sent.inj h)),
          if_neg (fun h => hq h.2)]
    · rw [hro b hb, if_neg (fun h => hb h.1)]
  have hmono : ∀ (b : Bool) (q : String),
      ((d.tree b).find (SKey.sent q)).isSome = true →
      ((r.tree b).find (SKey.sent q)).isSome = true := by
    intro b q h
    rw [hrfind]
    by_cases hc : b = isB ∧ q = keyPre
    · rw [if_pos hc]; rfl
    · rw [if_neg hc]; exact h
  refine ⟨?_, ?_, ?_, ?_, ?_, ?_⟩
  · intro p meta kind' hpk'
    rw [hrm] at hpk'
    by_cases hpe : p = keyPre
    · subst hpe
      rw [lookupL_insertL_self] at hpk'
      obtain ⟨hmeta, hkind⟩ := Prod.mk.injEq .. ▸ Option.some.inj hpk'
      subst hmeta; subst hkind
      refine ⟨fun _ => ?_, fun hT => absurd hT hk⟩
      rw [decide_meta_eq, hrt, STree.find_insertKV_self]
      rfl
    · rw [lookupL_insertL_ne _ _ _ _ hpe] at hpk'
      exact ⟨fun h => hmono _ _ ((hA p meta kind' hpk').1 h),
        fun h f hf => hmono _ _ ((hA p meta kind' hpk').2 h f hf)⟩
  · intro q hq
    have hq' : ((r.tree false).find (SKey.sent q)).isSome = true := hq
    rw [hrfind] at hq'
    by_cases hc : false = isB ∧ q = keyPre
    · obtain ⟨hb0, hq0⟩ := hc
      subst hq0
      refine Or.inl ⟨kind, hk, ?_⟩
      rw [hrm, lookupL_insertL_self, ← hb0]
      rfl
    · rw [if_neg hc] at hq'
      exact SentWitness_mono d r _ q (hB q hq') hpres
  · intro q hq
    have hq' : ((r.tree true).find (SKey.sent q)).isSome = true := hq
    rw [hrfind] at hq'
    by_cases hc : true = isB ∧ q = keyPre
    · obtain ⟨hb0, hq0⟩ := hc
      subst hq0
      refine Or.inl ⟨kind, hk, ?_⟩
      rw [hrm, lookupL_insertL_self, ← hb0]
      rfl
    · rw [if_neg hc] at hq'
      exact SentWitness_mono d r _ q (hC q hq') hpres
  · intro e he
    rw [hrm] at he
    rcases (mem_insertL _ _ _ _).mp he with rfl | ⟨he', _⟩
    · exact hp
    · exact hD e he'
  · intro p meta hpT
    rw [hrm] at hpT
    by_cases hpe : p = keyPre
    · subst hpe
      rw [lookupL_insertL_self] at hpT
      obtain ⟨_, hkind⟩ := Prod.mk.injEq .. ▸ Option.some.inj hpT
      exact absurd hkind hk
    · rw [lookupL_insertL_ne _ _ _ _ hpe] at hpT
      rw [hrfind, if_neg (fun h => hpe h.2)]
      exact hE p meta hpT
  · intro e he
    rw [hrm] at he ⊢
    rcases (mem_insertL _ _ _ _).mp he with rfl | ⟨he', hne⟩
    · exact lookupL_insertL_self _ _ _
    · rw [lookupL_insertL_ne _ _ _ _ hne]
      exact hF e he'

/-- Registering a fresh Time prefix and inserting its ten sub-field
sentinels (the first-write block of `store_time_metric_at`, local_drain.rs
778-811) preserves the invariant. -/
theorem SentInv_after_register_time (d : LocalDrain) (hinv : SentInv d)
    (keyPre : String) (hp : noSpaceStr keyPre) (isB : Bool)
    (hnew : lookupL d.metrics keyPre = none)
    (r : LocalDrain)
    (hrm : r.metrics = insertL d.metrics keyPre
      ((if isB then MetricMeta.ClusterBackend else MetricMeta.Cluster),
        MetricKind.Time))
    (hrt : r.tree isB = subFields.foldl
      (fun t f => t.insertKV (SKey.sent (timeSub keyPre f)) (Val.raw 0))
      (d.tree isB))
    (hro : ∀ b, b ≠ isB → r.tree b = d.tree b) :
    SentInv r := by
  obtain ⟨hA, hB, hC, hD, hE, hF⟩ := hinv
  have hpres : ∀ (p : String) (v : MetricMeta × MetricKind),
      lookupL d.metrics p = some v → lookupL r.metrics p = some v := by
    intro p v hv
    have hpk : p ≠ keyPre := fun h => by rw [h, hnew] at hv; cases hv
    rw [hrm, lookupL_insertL_ne _ _ _ _ hpk]; exact hv
  have hBC : ∀ (b : Bool) (q : String),
      ((d.tree b).find (SKey.sent q)).isSome = true →
      SentWitness d
        (if b then MetricMeta.ClusterBackend else MetricMeta.Cluster) q := by
    intro b q h
    cases b
    · exact hB q h
    · exact hC q h
  have hfresh : (d.tree isB).find (SKey.sent keyPre) = none := by
    cases hfind : (d.tree isB).find (SKey.sent keyPre) with
    | none => rfl
    | some v =>
      exfalso
      have hs : ((d.tree isB).find (SKey.sent keyPre)).isSome = true := by
        rw [hfind]; rfl
      rcases hBC isB keyPre hs with ⟨k0, _, hl⟩ | ⟨base, f, _, hqf, _⟩
      · rw [hnew] at hl; cases hl
      · exact noSpace_ne_timeSub keyPre base f hp hqf
  have hmono : ∀ (b : Bool) (q : String),
      ((d.tree b).find (SKey.sent q)).isSome = true →
      ((r.tree b).find (SKey.sent q)).isSome = true := by
    intro b q h
    by_cases hb : b = isB
    · subst hb
      rw [hrt]
      exact isSome_find_foldl_sent _ _ _ _ h
    · rw [hro b hb]; exact h
  refine ⟨?_, ?_, ?_, ?_, ?_, ?_⟩
  · intro p meta kind' hpk'
    rw [hrm] at hpk'
    by_cases hpe : p = keyPre
    · subst hpe
      rw [lookupL_insertL_self] at hpk'
      obtain ⟨hmeta, hkind⟩ := Prod.mk.injEq .. ▸ Option.some.inj hpk'
      subst hmeta; subst hkind
      refine ⟨fun hnT => absurd rfl hnT, fun _ f hf => ?_⟩
      rw [decide_meta_eq, hrt]
      exact find_foldl_sent_self _ _ _ _ hf
    · rw [lookupL_insertL_ne _ _ _ _ hpe] at hpk'
      exact ⟨fun h => hmono _ _ ((hA p meta kind' hpk').1 h),
        fun h f hf => hmono _ _ ((hA p meta kind' hpk').2 h f hf)⟩
  · intro q hq
    have hq' : ((r.tree false).find (SKey.sent q)).isSome = true := hq
    by_cases hb : (false : Bool) = isB
    · rw [← hb] at hrt
      rw [hrt] at hq'
      rcases find_foldl_sent_inv _ _ _ _ hq' with ⟨f, hf, hqf⟩ | h'
      · refine Or.inr ⟨keyPre, f, hf, hqf, ?_⟩
        rw [hrm, lookupL_insertL_self, ← hb]
        rfl
      · exact SentWitness_mono d r _ q (hB q h') hpres
    · rw [hro false hb] at hq'
      exact SentWitness_mono d r _ q (hB q hq') hpres
  · intro q hq
    have hq' : ((r.tree true).find (SKey.sent q)).isSome = true := hq
    by_cases hb : (true : Bool) = isB
    · rw [← hb] at hrt
      rw [hrt] at hq'
      rcases find_foldl_sent_inv _ _ _ _ hq' with ⟨f, hf, hqf⟩ | h'
      · refine Or.inr ⟨keyPre, f, hf, hqf, ?_⟩
        rw [hrm, lookupL_insertL_self, ← hb]
        rfl
      · exact SentWitness_mono d r _ q (hC q h') hpres
    · rw [hro true hb] at hq'
      exact SentWitness_mono d r _ q (hC q hq') hpres
  · intro e he
    rw [hrm] at he
    rcases (mem_insertL _ _ _ _).mp he with rfl | ⟨he', _⟩
    · exact hp
    · exact hD e he'
  · intro p meta hpT
    rw [hrm] at hpT
    by_cases hpe : p = keyPre
    · subst hpe
      rw [lookupL_insertL_self] at hpT
      obtain ⟨hmeta, _⟩ := Prod.mk.injEq .. ▸ Option.some.inj hpT
      subst hmeta
      rw [decide_meta_eq, hrt,
        find_foldl_sent_other _ _ _ _
          (fun f _ => noSpace_ne_timeSub p p f hp)]
      exact hfresh
    · rw [lookupL_insertL_ne _ _ _ _ hpe] at hpT
      have hpn : noSpaceStr p := hD _ (lookupL_mem _ _ _ hpT)
      by_cases hb : decide (meta = MetricMeta.ClusterBackend) = isB
      · rw [hb, hrt,
          find_foldl_sent_other _ _ _ _
            (fun f _ => noSpace_ne_timeSub p keyPre f hpn), ← hb]
        exact hE p meta hpT
      · rw [hro _ hb]
        exact hE p meta hpT
  · intro e he
    rw [hrm] at he ⊢
    rcases (mem_insertL _ _ _ _).mp he with rfl | ⟨he', hne⟩
    · exact lookupL_insertL_self _ _ _
    · rw [lookupL_insertL_ne _ _ _ _ hne]
      exact hF e he'

/-- Evicting a prefix (the `get_gt` branch of `clear`, local_drain.rs
986-1001) — removing its bare sentinel from its namespace and its registry
entry — preserves the invariant, provided the evicted key is space-free and
is either unregistered or registered as non-Time in that same namespace. -/
theorem SentInv_after_evict (d : LocalDrain) (hinv : SentInv d) (key : String)
    (hsp : noSpaceStr key) (isB : Bool)
    (hreg : lookupL d.metrics key = none ∨
      ∃ meta kind, lookupL d.metrics key = some (meta, kind) ∧
        decide (meta = MetricMeta.ClusterBackend) = isB ∧
        kind ≠ MetricKind.Time)
    (r : LocalDrain)
    (hrm : r.metrics = removeL d.metrics key)
    (hrt : r.tree isB = (d.tree isB).removeK (SKey.sent key))
    (hro : ∀ b, b ≠ isB → r.tree b = d.tree b) :
    SentInv r := by
  obtain ⟨hA, hB, hC, hD, hE, hF⟩ := hinv
  have hrfind : ∀ (b : Bool) (q : String), (r.tree b).find (SKey.sent q)
      = if b = isB ∧ q = key then none
        else (d.tree b).find (SKey.sent q) := by
    intro b q
    by_cases hb : b = isB
    · subst hb
      rw [hrt, STree.find_removeK]
      by_cases hq : q = key
      · subst hq; rw [if_pos rfl, if_pos ⟨rfl, rfl⟩]
      · rw [if_neg (fun h => hq (SKey.sent.inj h)),
          if_neg (fun h => hq h.2)]
    · rw [hro b hb, if_neg (fun h => hb h.1)]
  have hpres1 : ∀ (p : String) (v : MetricMeta × MetricKind), p ≠ key →
      lookupL d.metrics p = some v → lookupL r.metrics p = some v := by
    intro p v hpk hv
    rw [hrm, lookupL_removeL_ne _ _ _ hpk]; exact hv
  have hlift : ∀ (mb : MetricMeta) (b : Bool) (q : String),
      decide (mb = MetricMeta.ClusterBackend) = b →
      SentWitness d mb q → ¬(b = isB ∧ q = key) → SentWitness r mb q := by
    intro mb b q hmb hw hnc
    rcases hw with ⟨k0, hk0, hl0⟩ | ⟨base, f, hf0, hqf, hl0⟩
    · by_cases hqk : q = key
      · exfalso
        subst hqk
        rcases hreg with hn | ⟨meta', kind', hl, hdm, _⟩
        · rw [hn] at hl0; cases hl0
        · rw [hl] at hl0
          obtain ⟨hm', _⟩ := Prod.mk.injEq .. ▸ Option.some.inj hl0
          exact hnc ⟨by rw [← hmb, ← hm']; exact hdm, rfl⟩
      · exact Or.inl ⟨k0, hk0, hpres1 _ _ hqk hl0⟩
    · by_cases hbk : base = key
      · exfalso
        subst hbk
        rcases hreg with hn | ⟨meta', kind', hl, hdm, hkT⟩
        · rw [hn] at hl0; cases hl0
        · rw [hl] at hl0
          obtain ⟨_, hk'⟩ := Prod.mk.injEq .. ▸ Option.some.inj hl0
          exact hkT hk'
      · exact Or.inr ⟨base, f, hf0, hqf, hpres1 _ _ hbk hl0⟩
  refine ⟨?_, ?_, ?_, ?_, ?_, ?_⟩
  · intro p meta kind' h
    rw [hrm] at h
    by_cases hpk : p = key
    · subst hpk; rw [lookupL_removeL_self] at h; cases h
    · rw [lookupL_removeL_ne _ _ _ hpk] at h
      refine ⟨fun hnT => ?_, fun hT f hf => ?_⟩
      · rw [hrfind, if_neg (fun hc => hpk hc.2)]
        exact (hA p meta kind' h).1 hnT
      · rw [hrfind, if_neg (fun hc =>
          noSpace_ne_timeSub key p f hsp hc.2.symm)]
        exact (hA p meta kind' h).2 hT f hf
  · intro q hq
    have hq' : ((r.tree false).find (SKey.sent q)).isSome = true := hq
    rw [hrfind] at hq'
    by_cases hc : (false = isB ∧ q = key)
    · rw [if_pos hc] at hq'
      exact Bool.noConfusion hq'
    · rw [if_neg hc] at hq'
      exact hlift MetricMeta.Cluster false q (by decide) (hB q hq') hc
  · intro q hq
    have hq' : ((r.tree true).find (SKey.sent q)).isSome = true := hq
    rw [hrfind] at hq'
    by_cases hc : (true = isB ∧ q = key)
    · rw [if_pos hc] at hq'
      exact Bool.noConfusion hq'
    · rw [if_neg hc] at hq'
      exact hlift MetricMeta.ClusterBackend true q (by decide) (hC q hq') hc
  · intro e he
    rw [hrm] at he
    exact hD e ((mem_removeL _ _ _).mp he).1
  · intro p meta h
    rw [hrm] at h
    by_cases hpk : p = key
    · subst hpk; rw [lookupL_removeL_self] at h; cases h
    · rw [lookupL_removeL_ne _ _ _ hpk] at h
      rw [hrfind]
      by_cases hc : (decide (meta = MetricMeta.ClusterBackend) = isB ∧ p = key)
      · rw [if_pos hc]
      · rw [if_neg hc]
        exact hE p meta h
  · intro e he
    rw [hrm] at he ⊢
    obtain ⟨he', hne⟩ := (mem_removeL _ _ _).mp he
    rw [lookupL_removeL_ne _ _ _ hne]
    exact hF e he'

/-- The gauge data write never touches sentinels or the registry. -/
theorem SentInv_store_gauge (keyPre : String) (i : ℕ) (isB : Bool)
    (now : ℤ) (d1 : LocalDrain) (h1 : SentInv d1) :
    SentInv (LocalDrain.store_gauge keyPre i isB now d1) :=
  SentInv_transfer d1 _ h1
    (LocalDrain.store_gauge_frame keyPre i isB now d1 false (SKey.sent "")
      (fun _ h => SKey.noConfusion h)).2
    (fun b q => (LocalDrain.store_gauge_frame keyPre i isB now d1 b
      (SKey.sent q) (fun _ h => SKey.noConfusion h)).1)

/-- The gauge-delta data write likewise. -/
theorem SentInv_add_gauge (keyPre : String) (i : ℤ) (isB : Bool)
    (now : ℤ) (d1 : LocalDrain) (h1 : SentInv d1) :
    SentInv (LocalDrain.add_gauge keyPre i isB now d1) :=
  SentInv_transfer d1 _ h1
    (LocalDrain.add_gauge_frame keyPre i isB now d1 false (SKey.sent "")
      (fun _ h => SKey.noConfusion h)).2
    (fun b q => (LocalDrain.add_gauge_frame keyPre i isB now d1 b
      (SKey.sent q) (fun _ h => SKey.noConfusion h)).1)

/-- The count data write likewise. -/
theorem SentInv_store_count (keyPre : String) (i : ℤ) (isB : Bool)
    (now : ℤ) (d1 : LocalDrain) (h1 : SentInv d1) :
    SentInv (LocalDrain.store_count keyPre i isB now d1) :=
  SentInv_transfer d1 _ h1
    (LocalDrain.store_count_frame keyPre i isB now d1 false (SKey.sent "")
      (fun _ h => SKey.noConfusion h)).2
    (fun b q => (LocalDrain.store_count_frame keyPre i isB now d1 b
      (SKey.sent q) (fun _ h => SKey.noConfusion h)).1)

/-- `store_metric` preserves the invariant (it is only reached with
non-Time metrics; a space-free prefix is what the receive paths build). -/
theorem SentInv_store_metric (keyPre : String) (isB : Bool)
    (metric : MetricData) (now : ℤ) (d : LocalDrain) (hinv : SentInv d)
    (hp : noSpaceStr keyPre) (hm : ∀ t, metric ≠ MetricData.Time t) :
    SentInv (LocalDrain.store_metric keyPre isB metric now d) := by
  unfold LocalDrain.store_metric
  dsimp only
  cases metric with
  | Time t => exact absurd rfl (hm t)
  | Gauge i =>
    apply SentInv_store_gauge
    by_cases hn : (lookupL d.metrics keyPre).isNone
    · simp only [hn, if_true]
      refine SentInv_after_register d hinv keyPre hp isB MetricKind.Gauge
        (fun h => MetricKind.noConfusion h) (Option.isNone_iff_eq_none.mp hn)
        _ ?_ ?_ ?_
      · rw [LocalDrain.metrics_setTree]
      · rw [LocalDrain.tree_setTree_same, tree_withMetrics]
      · intro b hb
        rw [LocalDrain.tree_setTree_other _ _ _ _ hb, tree_withMetrics]
    · simp only [hn, Bool.false_eq_true, if_false]
      exact hinv
  | GaugeAdd i =>
    apply SentInv_add_gauge
    by_cases hn : (lookupL d.metrics keyPre).isNone
    · simp only [hn, if_true]
      refine SentInv_after_register d hinv keyPre hp isB MetricKind.Gauge
        (fun h => MetricKind.noConfusion h) (Option.isNone_iff_eq_none.mp hn)
        _ ?_ ?_ ?_
      · rw [LocalDrain.metrics_setTree]
      · rw [LocalDrain.tree_setTree_same, tree_withMetrics]
      · intro b hb
        rw [LocalDrain.tree_setTree_other _ _ _ _ hb, tree_withMetrics]
    · simp only [hn, Bool.false_eq_true, if_false]
      exact hinv
  | Count i =>
    apply SentInv_store_count
    by_cases hn : (lookupL d.metrics keyPre).isNone
    · simp only [hn, if_true]
      refine SentInv_after_register d hinv keyPre hp isB MetricKind.Count
        (fun h => MetricKind.noConfusion h) (Option.isNone_iff_eq_none.mp hn)
        _ ?_ ?_ ?_
      · rw [LocalDrain.metrics_setTree]
      · rw [LocalDrain.tree_setTree_same, tree_withMetrics]
      · intro b hb
        rw [LocalDrain.tree_setTree_other _ _ _ _ hb, tree_withMetrics]
    · simp only [hn, Bool.false_eq_true, if_false]
      exact hinv

/-- `store_time_metric_at` preserves the invariant when the built prefix is
space-free. -/
theorem SentInv_store_time_metric_at (key cid : String) (bid : Option String)
    (ts : ℤ) (tv : ℕ) (d : LocalDrain) (hinv : SentInv d)
    (hp : noSpaceStr (match bid with
      | some b => key ++ "\t" ++ cid ++ "\t" ++ b
      | none => key ++ "\t" ++ cid)) :
    SentInv (LocalDrain.store_time_metric_at key cid bid ts tv d) := by
  unfold LocalDrain.store_time_metric_at
  dsimp only
  refine SentInv_transfer _ _ ?_ (LocalDrain.metrics_setTree _ _ _) ?_
  · split
    · rename_i hn
      refine SentInv_after_register_time d hinv _ hp bid.isSome
        (Option.isNone_iff_eq_none.mp hn) _ ?_ ?_ ?_
      · rw [LocalDrain.metrics_setTree]
      · rw [LocalDrain.tree_setTree_same, tree_withMetrics]
      · intro b hb
        rw [LocalDrain.tree_setTree_other _ _ _ _ hb, tree_withMetrics]
    · exact hinv
  · intro b q
    by_cases hb : b = bid.isSome
    · subst hb
      rw [LocalDrain.tree_setTree_same, find_timeCellsUpdate_sent]
    · rw [LocalDrain.tree_setTree_other _ _ _ _ hb]

/-- `store_time_metric` preserves the invariant. -/
theorem SentInv_store_time_metric (key cid : String) (bid : Option String)
    (now : ℤ) (tv : ℕ) (d : LocalDrain) (hinv : SentInv d)
    (hp : noSpaceStr (match bid with
      | some b => key ++ "\t" ++ cid ++ "\t" ++ b
      | none => key ++ "\t" ++ cid)) :
    SentInv (LocalDrain.store_time_metric key cid bid now tv d) := by
  unfold LocalDrain.store_time_metric
  dsimp only
  by_cases hs : secOf now ≠ 0
  · rw [if_pos hs]
    exact SentInv_store_time_metric_at _ _ _ _ _ _
      (SentInv_store_time_metric_at _ _ _ _ _ _ hinv hp) hp
  · rw [if_neg hs]
    exact SentInv_store_time_metric_at _ _ _ _ _ _ hinv hp

/-- `receive_cluster_metric` preserves the invariant for grammar-conforming
names and ids. -/
theorem SentInv_receive_cluster_metric (key cid : String)
    (bid : Option String) (metric : MetricData) (now : ℤ) (d : LocalDrain)
    (hinv : SentInv d) (hk : goodStr key) (hc : goodStr cid)
    (hbs : ∀ s, bid = some s → goodStr s) :
    SentInv (LocalDrain.receive_cluster_metric key cid bid metric now d) := by
  have hkc : noSpaceStr (key ++ "\t" ++ cid) :=
    noSpaceStr_append _ _ (noSpaceStr_append _ _ (noSpaceStr_of_goodStr _ hk)
      noSpaceStr_tab) (noSpaceStr_of_goodStr _ hc)
  unfold LocalDrain.receive_cluster_metric
  cases metric with
  | Time t =>
    dsimp only
    cases bid with
    | none =>
      exact SentInv_store_time_metric key cid none now t d hinv hkc
    | some b =>
      have hkb : noSpaceStr (key ++ "\t" ++ cid ++ "\t" ++ b) :=
        noSpaceStr_append _ _ (noSpaceStr_append _ _ hkc noSpaceStr_tab)
          (noSpaceStr_of_goodStr _ (hbs b rfl))
      exact SentInv_store_time_metric key cid (some b) now t _
        (SentInv_store_time_metric key cid none now t d hinv hkc) hkb
  | Gauge i =>
    dsimp only
    cases bid with
    | none =>
      exact SentInv_store_metric _ false _ now d hinv hkc
        (fun _ h => MetricData.noConfusion h)
    | some b =>
      have hkb : noSpaceStr (key ++ "\t" ++ cid ++ "\t" ++ b) :=
        noSpaceStr_append _ _ (noSpaceStr_append _ _ hkc noSpaceStr_tab)
          (noSpaceStr_of_goodStr _ (hbs b rfl))
      exact SentInv_store_metric _ true _ now _
        (SentInv_store_metric _ false _ now d hinv hkc
          (fun _ h => MetricData.noConfusion h))
        hkb (fun _ h => MetricData.noConfusion h)
  | GaugeAdd i =>
    dsimp only
    cases bid with
    | none =>
      exact SentInv_store_metric _ false _ now d hinv hkc
        (fun _ h => MetricData.noConfusion h)
    | some b =>
      have hkb : noSpaceStr (key ++ "\t" ++ cid ++ "\t" ++ b) :=
        noSpaceStr_append _ _ (noSpaceStr_append _ _ hkc noSpaceStr_tab)
          (noSpaceStr_of_goodStr _ (hbs b rfl))
      exact SentInv_store_metric _ true _ now _
        (SentInv_store_metric _ false _ now d hinv hkc
          (fun _ h => MetricData.noConfusion h))
        hkb (fun _ h => MetricData.noConfusion h)
  | Count i =>
    dsimp only
    cases bid with
    | none =>
      exact SentInv_store_metric _ false _ now d hinv hkc
        (fun _ h => MetricData.noConfusion h)
    | some b =>
      have hkb : noSpaceStr (key ++ "\t" ++ cid ++ "\t" ++ b) :=
        noSpaceStr_append _ _ (noSpaceStr_append _ _ hkc noSpaceStr_tab)
          (noSpaceStr_of_goodStr _ (hbs b rfl))
      exact SentInv_store_metric _ true _ now _
        (SentInv_store_metric _ false _ now d hinv hkc
          (fun _ h => MetricData.noConfusion h))
        hkb (fun _ h => MetricData.noConfusion h)

/-- `receive_metric` preserves the invariant (the `cid = None` path touches
only the process-global `data` map). -/
theorem SentInv_receive_metric (key : String) (cid bid : Option String)
    (metric : MetricData) (now : ℤ) (d : LocalDrain) (hinv : SentInv d)
    (hk : goodStr key) (hc : ∀ s, cid = some s → goodStr s)
    (hbs : ∀ s, bid = some s → goodStr s) :
    SentInv (LocalDrain.receive_metric key cid bid metric now d) := by
  unfold LocalDrain.receive_metric
  cases cid with
  | some c =>
    exact SentInv_receive_cluster_metric key c bid metric now d hinv hk
      (hc c rfl) hbs
  | none =>
    dsimp only
    cases lookupL d.data key <;> dsimp only <;>
      exact SentInv_transfer d _ hinv rfl (fun b q => rfl)

/-- The `get_gt` eviction tail of one `clear` pass, abstracted over the
resulting state: eviction only fires with the bare sentinel present, which
rules out a Time-kind registration of the evicted prefix. -/
theorem SentInv_gt_tail (d1 r : LocalDrain) (key : String) (isB : Bool)
    (hinv1 : SentInv d1) (hsp : noSpaceStr key)
    (hcur : lookupL d1.metrics key = none ∨
      ∃ meta kind, lookupL d1.metrics key = some (meta, kind) ∧
        decide (meta = MetricMeta.ClusterBackend) = isB)
    (hr : r = d1 ∨
      (((d1.tree isB).find (SKey.sent key)).isSome = true ∧
        r.metrics = removeL d1.metrics key ∧
        r.tree isB = (d1.tree isB).removeK (SKey.sent key) ∧
        (∀ b, b ≠ isB → r.tree b = d1.tree b))) :
    SentInv r ∧
      (r.metrics = d1.metrics ∨ r.metrics = removeL d1.metrics key) := by
  rcases hr with rfl | ⟨hpresent, hrm, hrt, hro⟩
  · exact ⟨hinv1, Or.inl rfl⟩
  · refine ⟨?_, Or.inr hrm⟩
    have hreg : lookupL d1.metrics key = none ∨
        ∃ meta kind, lookupL d1.metrics key = some (meta, kind) ∧
          decide (meta = MetricMeta.ClusterBackend) = isB ∧
          kind ≠ MetricKind.Time := by
      rcases hcur with hn | ⟨meta, kind, hl, hdm⟩
      · exact Or.inl hn
      · refine Or.inr ⟨meta, kind, hl, hdm, ?_⟩
        intro hT
        subst hT
        have hnone := hinv1.2.2.2.2.1 key meta hl
        rw [hdm] at hnone
        rw [hnone] at hpresent
        exact Bool.noConfusion hpresent
    exact SentInv_after_evict d1 hinv1 key hsp isB hreg r hrm hrt hro

/-- One `clear` pass over a registry snapshot entry preserves the invariant
and either keeps the registry or removes exactly that entry. -/
theorem SentInv_clearStep (now : ℤ) (d : LocalDrain)
    (entry : String × MetricMeta × MetricKind) (hinv : SentInv d)
    (hsp : noSpaceStr entry.1)
    (hcur : lookupL d.metrics entry.1 = none ∨
      lookupL d.metrics entry.1 = some entry.2) :
    SentInv (LocalDrain.clearStep now d entry) ∧
      ((LocalDrain.clearStep now d entry).metrics = d.metrics ∨
        (LocalDrain.clearStep now d entry).metrics
          = removeL d.metrics entry.1) := by
  obtain ⟨key, meta, kind⟩ := entry
  dsimp only at hsp hcur ⊢
  unfold LocalDrain.clearStep
  dsimp only
  cases kind with
  | Gauge =>
    have hm1 : (d.setTree (decide (meta = MetricMeta.ClusterBackend))
        (LocalDrain.aggregate_gauge key now
          (d.tree (decide (meta = MetricMeta.ClusterBackend))))).metrics
        = d.metrics := LocalDrain.metrics_setTree _ _ _
    have hinv1 : SentInv
        (d.setTree (decide (meta = MetricMeta.ClusterBackend))
          (LocalDrain.aggregate_gauge key now
            (d.tree (decide (meta = MetricMeta.ClusterBackend))))) := by
      refine SentInv_transfer d _ hinv hm1 ?_
      intro b q
      by_cases hb : b = decide (meta = MetricMeta.ClusterBackend)
      · subst hb
        rw [LocalDrain.tree_setTree_same,
          find_aggregate_gauge_other _ _ _ _ (fun _ h => SKey.noConfusion h)]
      · rw [LocalDrain.tree_setTree_other _ _ _ _ hb]
    rw [← hm1]
    refine SentInv_gt_tail _ _ key
      (decide (meta = MetricMeta.ClusterBackend)) hinv1 hsp ?_ ?_
    · rw [hm1]
      rcases hcur with hn | hs
      · exact Or.inl hn
      · exact Or.inr ⟨meta, MetricKind.Gauge, hs, rfl⟩
    · split
      · rename_i k hgt
        split
        · rename_i hk
          subst hk
          refine Or.inr ⟨?_, ?_, ?_, ?_⟩
          · obtain ⟨v, hv⟩ := STree.get_gt_mem _ _ _ hgt
            exact find_isSome_of_mem _ _ _ hv
          · rw [LocalDrain.metrics_setTree]
          · rw [tree_withMetrics, LocalDrain.tree_setTree_same]
          · intro b hb
            rw [tree_withMetrics, LocalDrain.tree_setTree_other _ _ _ _ hb]
        · exact Or.inl rfl
      · exact Or.inl rfl
  | Count =>
    have hm1 : (d.setTree (decide (meta = MetricMeta.ClusterBackend))
        (LocalDrain.aggregate_count key now
          (d.tree (decide (meta = MetricMeta.ClusterBackend))))).metrics
        = d.metrics := LocalDrain.metrics_setTree _ _ _
    have hinv1 : SentInv
        (d.setTree (decide (meta = MetricMeta.ClusterBackend))
          (LocalDrain.aggregate_count key now
            (d.tree (decide (meta = MetricMeta.ClusterBackend))))) := by
      refine SentInv_transfer d _ hinv hm1 ?_
      intro b q
      by_cases hb : b = decide (meta = MetricMeta.ClusterBackend)
      · subst hb
        rw [LocalDrain.tree_setTree_same,
          find_aggregate_count_other _ _ _ _ (fun _ h => SKey.noConfusion h)]
      · rw [LocalDrain.tree_setTree_other _ _ _ _ hb]
    rw [← hm1]
    refine SentInv_gt_tail _ _ key
      (decide (meta = MetricMeta.ClusterBackend)) hinv1 hsp ?_ ?_
    · rw [hm1]
      rcases hcur with hn | hs
      · exact Or.inl hn
      · exact Or.inr ⟨meta, MetricKind.Count, hs, rfl⟩
    · split
      · rename_i k hgt
        split
        · rename_i hk
          subst hk
          refine Or.inr ⟨?_, ?_, ?_, ?_⟩
          · obtain ⟨v, hv⟩ := STree.get_gt_mem _ _ _ hgt
            exact find_isSome_of_mem _ _ _ hv
          · rw [LocalDrain.metrics_setTree]
          · rw [tree_withMetrics, LocalDrain.tree_setTree_same]
          · intro b hb
            rw [tree_withMetrics, LocalDrain.tree_setTree_other _ _ _ _ hb]
        · exact Or.inl rfl
      · exact Or.inl rfl
  | Time =>
    refine SentInv_gt_tail d _ key
      (decide (meta = MetricMeta.ClusterBackend)) hinv hsp ?_ ?_
    · rcases hcur with hn | hs
      · exact Or.inl hn
      · exact Or.inr ⟨meta, MetricKind.Time, hs, rfl⟩
    · split
      · rename_i k hgt
        split
        · rename_i hk
          subst hk
          refine Or.inr ⟨?_, ?_, ?_, ?_⟩
          · obtain ⟨v, hv⟩ := STree.get_gt_mem _ _ _ hgt
            exact find_isSome_of_mem _ _ _ hv
          · rw [LocalDrain.metrics_setTree]
          · rw [tree_withMetrics, LocalDrain.tree_setTree_same]
          · intro b hb
            rw [tree_withMetrics, LocalDrain.tree_setTree_other _ _ _ _ hb]
        · exact Or.inl rfl
      · exact Or.inl rfl

/-- Folding `clearStep` over a snapshot of space-free keys preserves the
invariant, given that each snapshot entry is absent from or current in the
evolving registry. -/
theorem SentInv_clear_fold (now : ℤ)
    (l : List (String × MetricMeta × MetricKind)) :
    ∀ d : LocalDrain, SentInv d → (∀ e ∈ l, noSpaceStr e.1) →
    (∀ e ∈ l, lookupL d.metrics e.1 = none ∨
      lookupL d.metrics e.1 = some e.2) →
    SentInv (l.foldl (LocalDrain.clearStep now) d) := by
  induction l with
  | nil => intro d h _ _; exact h
  | cons e es ih =>
    intro d hinv hl hcur
    rw [List.foldl_cons]
    obtain ⟨hinv1, hm1⟩ := SentInv_clearStep now d e hinv
      (hl e (List.mem_cons_self _ _)) (hcur e (List.mem_cons_self _ _))
    refine ih _ hinv1 (fun x hx => hl x (List.mem_cons_of_mem _ hx)) ?_
    intro x hx
    rcases hm1 with hm | hm
    · rw [hm]; exact hcur x (List.mem_cons_of_mem _ hx)
    · rw [hm]
      by_cases hxk : x.1 = e.1
      · rw [hxk]
        exact Or.inl (lookupL_removeL_self _ _)
      · rw [lookupL_removeL_ne _ _ _ hxk]
        exact hcur x (List.mem_cons_of_mem _ hx)

/-- `clear` preserves the invariant. -/
theorem SentInv_clear (now : ℤ) (d : LocalDrain) (hinv : SentInv d) :
    SentInv (LocalDrain.clear now d) := by
  unfold LocalDrain.clear
  exact SentInv_clear_fold now d.metrics d hinv hinv.2.2.2.1
    (fun e he => Or.inr (hinv.2.2.2.2.2 e he))

/-- The fresh drain satisfies the invariant. -/
theorem SentInv_new : SentInv LocalDrain.new := by
  refine ⟨?_, ?_, ?_, ?_, ?_, ?_⟩
  · intro p meta kind h; exact Option.noConfusion h
  · intro q h; exact Bool.noConfusion h
  · intro q h; exact Bool.noConfusion h
  · intro e he; cases he
  · intro p meta h; exact Option.noConfusion h
  · intro e he; cases he

/-- Each public operation with grammar-conforming strings preserves the
invariant. -/
theorem SentInv_applyOp (d : LocalDrain) (op : Op) (hinv : SentInv d)
    (hop : goodOp op) : SentInv (applyOp d op) := by
  cases op with
  | recv k c b m now =>
    obtain ⟨hk, hc, hb⟩ := hop
    exact SentInv_receive_metric k c b m now d hinv hk hc hb
  | clearOp now => exact SentInv_clear now d hinv

/-- C3 amended: after any sequence of public operations with
grammar-conforming names and ids, every prefix registered with kind Gauge
or Count has its bare sentinel `{prefix}\x7F` in the matching namespace,
every Time-kind prefix has the ten sub-field sentinels
`{prefix}.{field} \x7F` (but no bare `{prefix}\x7F`), and conversely every
sentinel present in a namespace belongs to a registered prefix — directly,
or as a sub-field sentinel of a registered Time prefix. -/
theorem claim_C3_sentinel_invariant (ops : List Op)
    (hops : ∀ op ∈ ops, goodOp op) : SentInv (runOps ops) := by
  unfold runOps
  suffices H : ∀ (l : List Op) (d : LocalDrain), SentInv d →
      (∀ op ∈ l, goodOp op) → SentInv (l.foldl applyOp d) from
    H ops LocalDrain.new SentInv_new hops
  intro l
  induction l with
  | nil => intro d h _; exact h
  | cons op l ih =>
    intro d h hg
    rw [List.foldl_cons]
    exact ih _ (SentInv_applyOp d op h (hg op (List.mem_cons_self _ _)))
      (fun o ho => hg o (List.mem_cons_of_mem _ ho))

/-- Witness for C3 amended: a Count first-write for `("reqs", "app")`
followed by a `clear` pass at an aggregation boundary. -/
theorem claim_C3_witness :
    SentInv (runOps
      [Op.recv "reqs" (some "app") none (MetricData.Count 3) 5,
       Op.clearOp 60]) :=
  claim_C3_sentinel_invariant
    [Op.recv "reqs" (some "app") none (MetricData.Count 3) 5,
     Op.clearOp 60]
    (by
      intro op hop
      rcases List.mem_cons.mp hop with rfl | hop
      · exact ⟨by decide, fun s hs => by cases hs; decide,
          fun s hs => by cases hs⟩
      · rcases List.mem_cons.mp hop with rfl | hop
        · trivial
        · cases hop)
